import Mathlib

/-!
# Verification of `tools/journal.py` (asktheargus)

A shallow embedding of the journal publisher: text is modelled as `List Char`,
Python regex searches are modelled by explicit leftmost-match scanners, and the
publish pipeline is a pure function from the home-page document (plus the entry
files) to either an error or the rewritten document.  File I/O is isolated in a
`World` state: `cmd_publish` computes the new `index.html` text and
`runPublish` applies it, mirroring the single trailing `write_text` call of the
Python code.
-/

set_option maxRecDepth 100000

namespace Journal

/-- Document text, modelled as a list of characters. -/
abbrev Text := List Char

/-- Coerce a Lean string literal to `Text`. -/
def txt (s : String) : Text := s.data

/-- Python's whitespace class `\s` restricted to ASCII: space, tab, newline,
carriage return, vertical tab, form feed.  (The Python originals also accept
rare Unicode whitespace, which no part of this repository uses.) -/
def pyIsSpace (c : Char) : Bool :=
  c = ' ' || c = '\t' || c = '\n' || c = '\r' || c = '\x0b' || c = '\x0c'

/-- `hasPre p t = true` iff `p` is a prefix of `t` (character-exact). -/
def hasPre : Text → Text → Bool
  | [], _ => true
  | _ :: _, [] => false
  | a :: as, b :: bs => a = b && hasPre as bs

/-- `hasSuf s t = true` iff `s` is a suffix of `t`. -/
def hasSuf (s t : Text) : Bool := hasPre s.reverse t.reverse

/-- Case-insensitive character comparison, as in `re.IGNORECASE` for ASCII. -/
def ciEq (a b : Char) : Bool := a.toLower = b.toLower

/-- `hasPreCI p t = true` iff `p` is a case-insensitive prefix of `t`. -/
def hasPreCI : Text → Text → Bool
  | [], _ => true
  | _ :: _, [] => false
  | a :: as, b :: bs => ciEq a b && hasPreCI as bs

/-- Matcher for a literal pattern: on success returns the text after the
pattern.  Models `re.escape(p)` matching at the current position. -/
def litMatch (p : Text) (l : Text) : Option Text :=
  if hasPre p l then some (l.drop p.length) else none

/-- Case-insensitive literal matcher. -/
def litMatchCI (p : Text) (l : Text) : Option Text :=
  if hasPreCI p l then some (l.drop p.length) else none

/-- Leftmost-match scan: try the matcher `m` at every position of `l` from the
left; on the first success return the text before the match together with the
matcher's payload.  This models how a Python regex search walks the string. -/
def scanFirst (m : Text → Option α) : Text → Option (Text × α)
  | [] => (m []).map (fun a => (([] : Text), a))
  | c :: tl =>
    match m (c :: tl) with
    | some a => some (([] : Text), a)
    | none => (scanFirst m tl).map (fun pa => (c :: pa.1, pa.2))

/-- First occurrence of the literal `p`: text before it and text after it. -/
def splitFirst (p : Text) (t : Text) : Option (Text × Text) :=
  scanFirst (litMatch p) t

/-- `p` occurs somewhere in `t` (Python's `p in t`). -/
def containsB (p t : Text) : Bool := (splitFirst p t).isSome

/-- `noStartB p u = true` says that, whatever text follows `u`, no match of the
literal `p` can start inside `u`: `p` does not occur in `u` and no nonempty
proper prefix of `p` is a suffix of `u` (which would allow a straddling
match). -/
def noStartB (p u : Text) : Bool :=
  (splitFirst p u).isNone &&
    (List.range p.length).all (fun m => m = 0 || !(hasSuf (p.take m) u))

/-- The comment opener `<!--`, the first characters of every marker pattern the
home-page rewriting looks for. -/
def cOpen : Text := txt "<!--"


/-- Python `str.rstrip()` (ASCII whitespace). -/
def pyRstrip (t : Text) : Text := (t.reverse.dropWhile pyIsSpace).reverse

/-- Python `str.strip()` (ASCII whitespace). -/
def pyStrip (t : Text) : Text :=
  ((t.dropWhile pyIsSpace).reverse.dropWhile pyIsSpace).reverse

/-- Helper for `re.sub(r"\s+", " ", x)`: collapse each whitespace run to one
space; `sawSpace` records whether the previous character was part of a run. -/
def collapseWs (sawSpace : Bool) : Text → Text
  | [] => []
  | c :: tl =>
    if pyIsSpace c then
      (if sawSpace then [] else [' ']) ++ collapseWs true tl
    else c :: collapseWs false tl

/-- `re.sub(r"\s+", " ", x).strip()`, the whitespace normalisation used on the
`<h3>` title and the summary paragraph. -/
def normSpace (t : Text) : Text := pyStrip (collapseWs false t)

/-! ## Marker constants (from `journal.py`) -/

def LATEST_START : Text := txt "<!-- LATEST_START -->"
def LATEST_END : Text := txt "<!-- LATEST_END -->"
def ARCHIVE_START : Text := txt "<!-- ARCHIVE START -->"
def ARCHIVE_END : Text := txt "<!-- ARCHIVE END -->"

/-! ## Document splicer: `replace_between_markers`

Python:
```
pattern = re.compile(re.escape(start) + r".*?" + re.escape(end), re.DOTALL)
block = start + "\n" + replacement.rstrip() + "\n  " + end
new_html, n = pattern.subn(block, html, count=1)
if n != 1: raise RuntimeError(f"Could not replace block between {start} and {end} (found {n} matches).")
```
`pattern.subn` treats `block` as a *replacement template*: when it contains a
backslash, CPython compiles it with `re._parser.parse_template` before
scanning for any match, so a malformed template raises `re.error` even when
the pattern matches nowhere, and valid escapes are rewritten in the output
(`\\` becomes a single backslash, `\n` a newline, `\g<0>` the whole match,
and so on).  That front end is modelled below (`parseTemplate`,
`compileRepl`).  With `count=1` the substitution count `n` is 0 or 1, so the
`n != 1` error fires exactly when the pattern has no match at all.  The
leftmost match of `start.*?end` begins at the first occurrence of `start` and
ends at the first occurrence of `end` after it. -/

/-- ASCII decimal digit (`\d` of the Python regexes; the repository never
feeds non-ASCII digits to them). -/
def isDig (c : Char) : Bool := '0' ≤ c && c ≤ '9'

/-- Octal digit (`sre_parse.OCTDIGITS`). -/
def isOct (c : Char) : Bool := '0' ≤ c && c ≤ '7'

/-- Numeric value of a digit character. -/
def digVal (c : Char) : Nat := c.toNat - 48

/-- `int(...)` on a digit string (most significant digit first). -/
def natOfDigits (ds : Text) : Nat := ds.foldl (fun n c => n * 10 + digVal c) 0

/-- A compiled replacement template: literal runs, and references to group 0
(the whole match).  Group 0 is the only group of the marker pattern
`re.escape(start).*?re.escape(end)`, so it is the only group a template can
reference without `parse_template` raising an error. -/
inductive ReplChunk where
  | lit (t : Text)
  | matchRef
deriving DecidableEq

/-- CPython's `re` tokenizer prefetches one token ahead, and a lone backslash
at the very end of the template raises `bad escape (end of pattern)` as soon
as the token before it is consumed — before that token itself is processed. -/
def loneBS : Text → Bool
  | ['\\'] => true
  | _ => false

def pfErr : String := "bad escape (end of pattern)"

/-- `Tokenizer.getuntil(">")` inside `\g<...>`: collect tokens until a `>`
terminator.  A backslash grabs the following character into a two-character
token, which can never equal the terminator, and a lone trailing backslash
raises the tokenizer's own error (also when it is prefetched right after the
terminating `>`). -/
def scanGroupName : Text → Text → Except String (Text × Text)
  | [], acc =>
    if acc.isEmpty then .error "missing group name"
    else .error "missing >, unterminated name"
  | ['\\'], _ => .error pfErr
  | '>' :: rest, acc =>
    if loneBS rest then .error pfErr
    else if acc.isEmpty then .error "missing group name"
    else .ok (acc, rest)
  | '\\' :: c :: rest, acc => scanGroupName rest (acc ++ ['\\', c])
  | c :: rest, acc => scanGroupName rest (acc ++ [c])

/-- Python's `str.isidentifier`, restricted to ASCII.  (Non-ASCII identifier
characters, and `int()`'s tolerance of surrounding whitespace, signs and
underscores when a non-identifier group name is parsed as a number, are
corner cases this model does not reproduce.) -/
def isAsciiIdent (n : Text) : Bool :=
  match n with
  | [] => false
  | c :: rest =>
    (c.isAlpha || c = '_') && rest.all (fun x => x.isAlpha || x.isDigit || x = '_')

def flushLit (cur : Text) (acc : List ReplChunk) : List ReplChunk :=
  if cur.isEmpty then acc else acc ++ [ReplChunk.lit cur]

/-- `re._parser.parse_template`, specialised to a group-less pattern, as a
left-to-right scan: `cur` is the literal run being accumulated, `acc` the
chunks already produced.  Escapes: `\\` and the control escapes
`\a \b \f \n \r \t \v` are rewritten; `\0` (plus up to two octal digits) and
three-digit octal escapes `\ooo ≤ \377` become the coded character; `\g<0>`
references the whole match; numeric group references other than 0 raise
`invalid group reference` (the pattern has no groups), larger octal escapes,
unknown ASCII-letter escapes, malformed `\g<...>` and a trailing backslash
raise the errors probed from CPython; a backslash before any other character
is kept verbatim (both characters).  Error values carry CPython's message
without its appended position information (`re.error` renders `...at position
N` when printed; `\g` of an identifier name raises `IndexError`; the `%r` of
a group name is rendered with plain single quotes).  The fuel
only guarantees termination: every step consumes at least one character, so
`length + 1` always suffices and the fuel-0 branch is never reached. -/
def parseTemplateGo : Nat → Text → Text → List ReplChunk → Except String (List ReplChunk)
  | 0, _, cur, acc => .ok (flushLit cur acc)
  | fuel + 1, l, cur, acc =>
    match l with
    | [] => .ok (flushLit cur acc)
    | ['\\'] => .error pfErr
    | '\\' :: c :: rest =>
      if loneBS rest then .error pfErr
      else if c = 'g' then
        match rest with
        | '<' :: rest2 =>
          if loneBS rest2 then .error pfErr
          else
            match scanGroupName rest2 [] with
            | .error msg => .error msg
            | .ok (name, rest3) =>
              if isAsciiIdent name then
                .error ("unknown group name '" ++ String.mk name ++ "'")
              else if !name.isEmpty && name.all isDig then
                if natOfDigits name = 0 then
                  parseTemplateGo fuel rest3 [] (flushLit cur acc ++ [ReplChunk.matchRef])
                else .error ("invalid group reference " ++ Nat.repr (natOfDigits name))
              else
                .error ("bad character in group name '" ++ String.mk name ++ "'")
        | _ => .error "missing <"
      else if c = '0' then
        match rest with
        | d1 :: rest1 =>
          if isOct d1 then
            if loneBS rest1 then .error pfErr
            else
              match rest1 with
              | d2 :: rest2 =>
                if isOct d2 then
                  if loneBS rest2 then .error pfErr
                  else parseTemplateGo fuel rest2
                    (cur ++ [Char.ofNat (digVal d1 * 8 + digVal d2)]) acc
                else parseTemplateGo fuel rest1 (cur ++ [Char.ofNat (digVal d1)]) acc
              | [] => parseTemplateGo fuel rest1 (cur ++ [Char.ofNat (digVal d1)]) acc
          else parseTemplateGo fuel rest (cur ++ [Char.ofNat 0]) acc
        | [] => parseTemplateGo fuel [] (cur ++ [Char.ofNat 0]) acc
      else if isDig c then
        match rest with
        | d2 :: rest1 =>
          if isDig d2 then
            if loneBS rest1 then .error pfErr
            else if isOct c && isOct d2 then
              match rest1 with
              | d3 :: rest2 =>
                if isOct d3 then
                  if loneBS rest2 then .error pfErr
                  else if 255 < digVal c * 64 + digVal d2 * 8 + digVal d3 then
                    .error ("octal escape value " ++ String.mk ['\\', c, d2, d3]
                      ++ " outside of range 0-0o377")
                  else parseTemplateGo fuel rest2
                    (cur ++ [Char.ofNat (digVal c * 64 + digVal d2 * 8 + digVal d3)]) acc
                else .error ("invalid group reference "
                  ++ Nat.repr (digVal c * 10 + digVal d2))
              | [] => .error ("invalid group reference "
                  ++ Nat.repr (digVal c * 10 + digVal d2))
            else .error ("invalid group reference " ++ Nat.repr (digVal c * 10 + digVal d2))
          else .error ("invalid group reference " ++ Nat.repr (digVal c))
        | [] => .error ("invalid group reference " ++ Nat.repr (digVal c))
      else if c = '\\' then parseTemplateGo fuel rest (cur ++ ['\\']) acc
      else if c = 'a' then parseTemplateGo fuel rest (cur ++ ['\x07']) acc
      else if c = 'b' then parseTemplateGo fuel rest (cur ++ ['\x08']) acc
      else if c = 'f' then parseTemplateGo fuel rest (cur ++ ['\x0c']) acc
      else if c = 'n' then parseTemplateGo fuel rest (cur ++ ['\n']) acc
      else if c = 'r' then parseTemplateGo fuel rest (cur ++ ['\r']) acc
      else if c = 't' then parseTemplateGo fuel rest (cur ++ ['\t']) acc
      else if c = 'v' then parseTemplateGo fuel rest (cur ++ ['\x0b']) acc
      else if c.isAlpha then .error ("bad escape " ++ String.mk ['\\', c])
      else parseTemplateGo fuel rest (cur ++ ['\\', c]) acc
    | c :: rest => parseTemplateGo fuel rest (cur ++ [c]) acc

def parseTemplate (t : Text) : Except String (List ReplChunk) :=
  parseTemplateGo (t.length + 1) t [] []

/-- The replacement front end of `Pattern.subn`: a template without a
backslash is used literally; otherwise it is compiled eagerly — before any
match is attempted — and a malformed template raises its error regardless of
how many matches exist. -/
def compileRepl (template : Text) : Except String (List ReplChunk) :=
  if containsB (txt "\\") template then parseTemplate template
  else .ok [ReplChunk.lit template]

/-- `expand_template`: substitute the whole-match text for every group-0
reference. -/
def expandRepl : List ReplChunk → Text → Text
  | [], _ => []
  | ReplChunk.lit t :: rest, w => t ++ expandRepl rest w
  | ReplChunk.matchRef :: rest, w => w ++ expandRepl rest w

/-- The `n != 1` failure message; with `count=1` the count in the error
branch is always 0. -/
def zeroMatchMsg (s e : Text) : String :=
  "Could not replace block between " ++ String.mk s ++ " and " ++ String.mk e
    ++ " (found 0 matches)."

def replace_between_markers (html s e r : Text) : Except String Text :=
  match compileRepl (s ++ txt "\n" ++ pyRstrip r ++ txt "\n  " ++ e) with
  | .error msg => .error msg
  | .ok chunks =>
    match splitFirst s html with
    | none => .error (zeroMatchMsg s e)
    | some (a, rest) =>
      match splitFirst e rest with
      | none => .error (zeroMatchMsg s e)
      | some (m, b) => .ok (a ++ expandRepl chunks (s ++ (m ++ e)) ++ b)

/-- One `start ... end` region at the current position: the literal `s`, then
(non-greedily) anything up to the first `e`.  Payload: the text after the
region. -/
def regionMatch (s e : Text) (l : Text) : Option Text :=
  (litMatch s l).bind (fun rest => (scanFirst (litMatch e) rest).map (fun pa => pa.2))

/-- Number of non-overlapping `start ... end` regions, scanning left to right —
the number of matches `re.subn` would perform without a `count` cap.  The fuel
argument only guarantees termination; `countRegions` sets it high enough. -/
def countRegionsFuel (s e : Text) : Nat → Text → Nat
  | 0, _ => 0
  | fuel + 1, t =>
    match scanFirst (regionMatch s e) t with
    | none => 0
    | some (_, rest) => 1 + countRegionsFuel s e fuel rest

/-- Number of non-overlapping `start ... end` regions in `t`. -/
def countRegions (s e t : Text) : Nat := countRegionsFuel s e (t.length + 1) t

/-! ## `LATEST_META` comment -/

/-- The replacement comment written by `update_latest_meta`:
`<!-- LATEST_META file="{rel}" title="{title}" -->`. -/
def metaComment (f t : Text) : Text :=
  txt "<!-- LATEST_META file=\"" ++ f ++ txt "\" title=\"" ++ t ++ txt "\" -->"

/-- `\s+`: at least one whitespace character, greedily. -/
def wsPlus : Text → Option Text
  | [] => none
  | c :: tl => if pyIsSpace c then some (tl.dropWhile pyIsSpace) else none

/-- Matcher for `LATEST_META_RE`:
`<!--\s*LATEST_META\s+file="([^"]+)"\s+title="([^"]+)"\s*-->` at the current
position; payload is the text after the whole comment.  Every sub-pattern here
is deterministic (each greedy piece is followed by a character it cannot
consume), so no backtracking is needed. -/
def matchMeta (l : Text) : Option Text :=
  match litMatch cOpen l with
  | none => none
  | some r1 =>
    match litMatch (txt "LATEST_META") (r1.dropWhile pyIsSpace) with
    | none => none
    | some r3 =>
      match wsPlus r3 with
      | none => none
      | some r4 =>
        match litMatch (txt "file=\"") r4 with
        | none => none
        | some r5 =>
          if (r5.takeWhile (fun c => !(c = '"'))).isEmpty then none
          else
            match litMatch (txt "\"") (r5.dropWhile (fun c => !(c = '"'))) with
            | none => none
            | some r7 =>
              match wsPlus r7 with
              | none => none
              | some r8 =>
                match litMatch (txt "title=\"") r8 with
                | none => none
                | some r9 =>
                  if (r9.takeWhile (fun c => !(c = '"'))).isEmpty then none
                  else
                    match litMatch (txt "\"") (r9.dropWhile (fun c => !(c = '"'))) with
                    | none => none
                    | some r11 => litMatch (txt "-->") (r11.dropWhile pyIsSpace)

/-- Parsed entry metadata (`EntryInfo` dataclass). -/
structure EntryInfo where
  rel_path : Text
  date_str : Text
  title_line : Text
  meta : Text
  sort_key : Nat × Nat × Nat
deriving DecidableEq

/-- `update_latest_meta`: replace the first `LATEST_META` comment (error when
the regex matches nowhere; `count=1` makes a multiple-match error
impossible). -/
def update_latest_meta (html : Text) (latest : EntryInfo) : Except String Text :=
  match scanFirst matchMeta html with
  | none => .error "Could not find/replace LATEST_META line."
  | some (a, rest) => .ok (a ++ metaComment latest.rel_path latest.title_line ++ rest)

/-- `ensure_markers_exist`: both marker pairs must be present as substrings,
and the text `LATEST_META` must occur somewhere. -/
def ensure_markers_exist (html : Text) : Except String Unit :=
  if containsB ARCHIVE_START html && containsB ARCHIVE_END html then
    if containsB LATEST_START html && containsB LATEST_END html then
      if containsB (txt "LATEST_META") html then .ok ()
      else .error "index.html is missing a LATEST_META comment."
    else .error "index.html is missing required marker pair: LATEST"
  else .error "index.html is missing required marker pair: ARCHIVE"

/-! ## Entry parser: `extract_entry_info`

`TITLE_H3_RE = re.compile(r"<h3>(.*?)</h3>", re.IGNORECASE | re.DOTALL)`:
leftmost position with a case-insensitive `<h3>` followed (non-greedily, any
characters) by a case-insensitive `</h3>`; group 1 is the inner text. -/

/-- Matcher for `<h3>(.*?)</h3>` at the current position; payload group 1. -/
def matchH3 (l : Text) : Option Text := do
  let r ← litMatchCI (txt "<h3>") l
  let pg ← scanFirst (litMatchCI (txt "</h3>")) r
  pure pg.1

/-- `TITLE_H3_RE.search(content)`, returning group 1 of the first match. -/
def searchH3 (content : Text) : Option Text :=
  (scanFirst matchH3 content).map (fun pa => pa.2)

/-- After `\s+` has consumed at least one whitespace character, match the rest
of `\s+(.+)`: either take `.+` now (first character not a newline), or — since
`\s+` is greedy, preferring the longest whitespace run — consume further
whitespace first.  On success, the payload is group `(.+)`: the maximal run of
non-newline characters from the chosen start. -/
def sepTailGo : Text → Option Text
  | [] => none
  | c :: tl =>
    if pyIsSpace c then
      match sepTailGo tl with
      | some r => some r
      | none => if c = '\n' then none else some ((c :: tl).takeWhile (fun d => !(d = '\n')))
    else
      if c = '\n' then none else some ((c :: tl).takeWhile (fun d => !(d = '\n')))

/-- Match `\s+(.+)` (no DOTALL) against `t`; payload is group `(.+)`. -/
def sepTail : Text → Option Text
  | [] => none
  | c :: tl => if pyIsSpace c then sepTailGo tl else none

/-- `re.match(r"(\d{4})-(\d{2})-(\d{2})\s+[—-]\s+(.+)", title_line)`:
anchored at the start; on success returns the three integer groups and the
title group. -/
def parseTitleLine (t : Text) : Option (Nat × Nat × Nat × Text) :=
  match t with
  | c1 :: c2 :: c3 :: c4 :: '-' :: c5 :: c6 :: '-' :: c7 :: c8 :: rest =>
    if isDig c1 && isDig c2 && isDig c3 && isDig c4 &&
       isDig c5 && isDig c6 && isDig c7 && isDig c8 then
      if (rest.takeWhile pyIsSpace).isEmpty then none
      else
        match rest.dropWhile pyIsSpace with
        | sep :: r3 =>
          if sep = '—' || sep = '-' then
            (sepTail r3).map (fun title =>
              (natOfDigits [c1, c2, c3, c4], natOfDigits [c5, c6],
               natOfDigits [c7, c8], title))
          else none
        | [] => none
    else none
  | _ => none

/-- `f"{n:02d}"`.  The call sites only ever format values below 100 (they come
from an exactly-two-digit match), where this agrees with Python. -/
def pad2 (n : Nat) : Text := [Nat.digitChar (n / 10 % 10), Nat.digitChar (n % 10)]

/-- `f"{n:04d}"`.  The call sites only ever format values below 10000 (they
come from an exactly-four-digit match), where this agrees with Python. -/
def pad4 (n : Nat) : Text :=
  [Nat.digitChar (n / 1000 % 10), Nat.digitChar (n / 100 % 10),
   Nat.digitChar (n / 10 % 10), Nat.digitChar (n % 10)]

/-- Matcher for `META_P_RE = r'<p\s+class="entry-meta"\s*>(.*?)</p>'`
(IGNORECASE, DOTALL) at the current position; payload group 1.  Again each
greedy whitespace run is followed by a non-whitespace literal, so the matcher
is deterministic. -/
def matchMetaP (l : Text) : Option Text := do
  let r1 ← litMatchCI (txt "<p") l
  let r2 ← wsPlus r1
  let r3 ← litMatchCI (txt "class=\"entry-meta\"") r2
  let r4 := r3.dropWhile pyIsSpace
  let r5 ← litMatch (txt ">") r4
  let pg ← scanFirst (litMatchCI (txt "</p>")) r5
  pure pg.1

/-- `META_P_RE.search(content)`, returning group 1 of the first match. -/
def searchMetaP (content : Text) : Option Text :=
  (scanFirst matchMetaP content).map (fun pa => pa.2)

/-- `extract_entry_info(entry_path)`.  Reading the file and computing the
path relative to the project root are I/O concerns; here the caller passes the
relative path (forward slashes) and the file content. -/
def extract_entry_info (rel_path : Text) (content : Text) : Except String EntryInfo :=
  match searchH3 content with
  | none => .error "Entry file must contain an h3 title line."
  | some inner =>
    match parseTitleLine (normSpace inner) with
    | none => .error "Entry h3 must start like a dated title line."
    | some (y, m, d, _title) =>
      .ok { rel_path := rel_path,
            date_str := pad4 y ++ txt "-" ++ pad2 m ++ txt "-" ++ pad2 d,
            title_line := normSpace inner,
            meta := match searchMetaP content with
              | some g => normSpace g
              | none => [],
            sort_key := (y, m, d) }

/-! ## `extract_latest_article_from_entry`

`re.search(r"(<article\b.*?</article>)", content, re.IGNORECASE | re.DOTALL)`
then `.group(1).strip()`. -/

/-- Python's `\w` (ASCII): letter, digit or underscore. -/
def isWordChar (c : Char) : Bool :=
  ('a' ≤ c && c ≤ 'z') || ('A' ≤ c && c ≤ 'Z') || ('0' ≤ c && c ≤ '9') || c = '_'

/-- Matcher for `<article\b.*?</article>` at the current position; payload is
the matched span (original characters, since `IGNORECASE` matching does not
rewrite text). -/
def matchArticle (l : Text) : Option Text := do
  let r ← litMatchCI (txt "<article") l
  match r.head? with
  | some c => if isWordChar c then none else pure ()
  | none => pure ()
  let pg ← scanFirst (litMatchCI (txt "</article>")) r
  pure (l.take (8 + pg.1.length + 10))

def extract_latest_article_from_entry (content : Text) : Except String Text :=
  match scanFirst matchArticle content with
  | none => .error "Entry file must include a full article block."
  | some (_, span) => .ok (pyStrip span)

/-! ## Archive builder -/

/-- `title_line.split("—", 1)[-1]`: the text after the first em-dash, or the
whole string when there is no em-dash. -/
def afterFirstEmDash (t : Text) : Text :=
  match splitFirst (txt "—") t with
  | some (_, rest) => rest
  | none => t

/-- The display title of an archive line:
`e.title_line.split("—", 1)[-1].strip()`. -/
def displayTitle (e : EntryInfo) : Text := pyStrip (afterFirstEmDash e.title_line)

/-- One `<li>` line of the archive list. -/
def archiveLine (e : EntryInfo) : Text :=
  txt "                <li><a href=\"" ++ e.rel_path ++ txt "\">" ++ e.date_str ++
    txt " - " ++ displayTitle e ++ txt "</a></li>"

/-- `"\n".join(lines)`. -/
def joinNl : List Text → Text
  | [] => []
  | [l] => l
  | l :: ls => l ++ txt "\n" ++ joinNl ls

/-- `build_archive_ul(entries)`. -/
def build_archive_ul (entries : List EntryInfo) : Text :=
  match entries with
  | [] => txt "                <!-- (no entries yet) -->"
  | _ => joinNl (entries.map archiveLine)

/-! ## `list_entries` -/

/-- Lexicographic order on text by Unicode code point — Python string
comparison, which `sorted` uses on the globbed paths (they share the
directory prefix, so this is the basename order). -/
def textLe : Text → Text → Bool
  | [], _ => true
  | _ :: _, [] => false
  | a :: as, b :: bs => if a = b then textLe as bs else decide (a.toNat < b.toNat)

/-- Lexicographic (Python tuple) order on `(year, month, day)` keys. -/
def keyLe : Nat × Nat × Nat → Nat × Nat × Nat → Bool
  | (y1, m1, d1), (y2, m2, d2) =>
    if y1 = y2 then (if m1 = m2 then d1 ≤ d2 else m1 < m2) else y1 < y2

/-- The ordering used for `infos.sort(key=..., reverse=True)`: a stable sort
that puts larger keys first. -/
def keyGe (a b : EntryInfo) : Prop := keyLe b.sort_key a.sort_key = true

instance : DecidableRel keyGe := fun a b => by unfold keyGe; infer_instance

/-- The order on files used for `sorted(ENTRIES_DIR.glob("*.html"))`. -/
def nameLe (a b : Text × Text) : Prop := textLe a.1 b.1 = true

instance : DecidableRel nameLe := fun a b => by unfold nameLe; infer_instance

/-- Does a (root-relative) file name match `entries/*.html`?  `*` does not
cross `/`. -/
def isEntryFile (n : Text) : Bool :=
  hasPre (txt "entries/") n &&
    (let base := n.drop 8
     !(base.any (fun c => c = '/')) && hasSuf (txt ".html") base)

/-- `list_entries()`: glob the entries directory in sorted order, parse each
file, silently skipping failures, then stable-sort by key, descending.
The file system is abstracted as a list of `(root-relative name, content)`
pairs. -/
def list_entries (files : List (Text × Text)) : List EntryInfo :=
  let globbed := (files.filter (fun nc => isEntryFile nc.1)).insertionSort nameLe
  let infos := globbed.filterMap (fun nc => (extract_entry_info nc.1 nc.2).toOption)
  infos.insertionSort keyGe

/-! ## Publish orchestrator -/

/-- `"  " + latest_article.replace("\n", "\n  ")`. -/
def replaceNl : Text → Text
  | [] => []
  | c :: tl =>
    if c = '\n' then '\n' :: ' ' :: ' ' :: replaceNl tl else c :: replaceNl tl

/-- The on-disk state the tool touches: the home page (if it exists) and the
other files, as root-relative `(name, content)` pairs. -/
structure World where
  index : Option Text
  files : List (Text × Text)
deriving DecidableEq

/-- Look a file up by its root-relative path. -/
def lookupFile (files : List (Text × Text)) (n : Text) : Option Text :=
  (files.find? (fun nc => nc.1 = n)).map (fun nc => nc.2)

/-- `cmd_publish(entry_rel)` up to — but not including — the final
`write_text`: every earlier step is a read or a pure computation, in the
order of the Python code.  Returns the new `index.html` text or the error
that aborted the run. -/
def cmd_publish (w : World) (entryRel : Text) : Except String Text := do
  let indexHtml ← match w.index with
    | some h => Except.ok h
    | none => Except.error "Missing index.html"
  let content ← match lookupFile w.files entryRel with
    | some c => Except.ok c
    | none => Except.error "Entry not found"
  ensure_markers_exist indexHtml
  let article ← extract_latest_article_from_entry content
  let info ← extract_entry_info entryRel content
  let entries := list_entries w.files
  let h1 ← update_latest_meta indexHtml info
  let h2 ← replace_between_markers h1 LATEST_START LATEST_END
    (txt "  " ++ replaceNl article)
  let h3 ← replace_between_markers h2 ARCHIVE_START ARCHIVE_END
    (build_archive_ul entries)
  pure h3

/-- Run `publish`: on success the computed text is written to the home page
(the single durable mutation); on error nothing is written. -/
def runPublish (w : World) (entryRel : Text) : World :=
  match cmd_publish w entryRel with
  | .ok t => { index := some t, files := w.files }
  | .error _ => w

/-! ## Basic facts about the text scanners -/

theorem hasPre_iff {p t : Text} : hasPre p t = true ↔ ∃ s, t = p ++ s := by
  induction p generalizing t with
  | nil => simp [hasPre]
  | cons a as ih =>
    cases t with
    | nil => simp [hasPre]
    | cons b bs =>
      simp only [hasPre, Bool.and_eq_true, decide_eq_true_eq, ih]
      constructor
      · rintro ⟨rfl, s, rfl⟩; exact ⟨s, rfl⟩
      · rintro ⟨s, h⟩
        cases h
        exact ⟨rfl, s, rfl⟩

theorem hasPre_append (p r : Text) : hasPre p (p ++ r) = true :=
  hasPre_iff.mpr ⟨r, rfl⟩

theorem litMatch_self (p r : Text) : litMatch p (p ++ r) = some r := by
  simp [litMatch, hasPre_append, List.drop_left]

theorem litMatch_eq_none {p l : Text} : litMatch p l = none ↔ hasPre p l = false := by
  unfold litMatch
  split <;> simp_all

theorem litMatch_eq_some {p l r : Text} (h : litMatch p l = some r) :
    l = p ++ r := by
  unfold litMatch at h
  split at h
  · rename_i hp
    obtain ⟨s, rfl⟩ := hasPre_iff.mp hp
    rw [List.drop_left] at h
    obtain rfl := Option.some.inj h
    rfl
  · exact absurd h (by simp)

theorem hasPre_trans {a p t : Text} (h1 : hasPre a p = true) (h2 : hasPre p t = true) :
    hasPre a t = true := by
  obtain ⟨x, rfl⟩ := hasPre_iff.mp h1
  obtain ⟨y, rfl⟩ := hasPre_iff.mp h2
  exact hasPre_iff.mpr ⟨x ++ y, by simp⟩

theorem hasPre_of_append_le {p u v : Text} (h : hasPre p (u ++ v) = true)
    (hl : p.length ≤ u.length) : hasPre p u = true := by
  obtain ⟨s, hs⟩ := hasPre_iff.mp h
  have htake : u.take p.length = p := by
    have : (u ++ v).take p.length = p := by
      rw [hs]; exact List.take_left' rfl
    rwa [List.take_append_of_le_length hl] at this
  refine hasPre_iff.mpr ⟨u.drop p.length, ?_⟩
  conv_lhs => rw [← List.take_append_drop p.length u]
  rw [htake]

theorem eq_take_of_hasPre_append {p u v : Text} (h : hasPre p (u ++ v) = true)
    (hl : u.length < p.length) : u = p.take u.length := by
  obtain ⟨s, hs⟩ := hasPre_iff.mp h
  have h1 : (u ++ v).take u.length = u := List.take_left u v
  rw [hs, List.take_append_of_le_length (Nat.le_of_lt hl)] at h1
  exact h1.symm

theorem hasSuf_iff {s t : Text} : hasSuf s t = true ↔ ∃ w, t = w ++ s := by
  unfold hasSuf
  rw [hasPre_iff]
  constructor
  · rintro ⟨q, hq⟩
    refine ⟨q.reverse, ?_⟩
    have := congrArg List.reverse hq
    simpa using this
  · rintro ⟨w, rfl⟩
    exact ⟨w.reverse, by simp⟩

theorem hasPre_of_take {a p : Text} (h : hasPre a p = true) {m : Nat}
    (hm : a.length ≤ m) : hasPre a (p.take m) = true := by
  obtain ⟨x, rfl⟩ := hasPre_iff.mp h
  rw [List.take_append_eq_append_take, List.take_of_length_le hm]
  exact hasPre_append _ _

/-! ### `scanFirst` characterisations -/

theorem scanFirst_eq_none_iff {α} {m : Text → Option α} {l : Text} :
    scanFirst m l = none ↔ ∀ k, m (l.drop k) = none := by
  induction l with
  | nil =>
    constructor
    · intro h k
      simp only [scanFirst] at h
      cases hm : m [] with
      | none => simpa using hm
      | some a => rw [hm] at h; simp at h
    · intro h
      have h0 := h 0
      simp only [List.drop_nil] at h0
      simp [scanFirst, h0]
  | cons c tl ih =>
    constructor
    · intro h k
      simp only [scanFirst] at h
      cases hm : m (c :: tl) with
      | some a => rw [hm] at h; simp at h
      | none =>
        rw [hm] at h
        cases hst : scanFirst m tl with
        | some pb => rw [hst] at h; simp at h
        | none =>
          cases k with
          | zero => simpa using hm
          | succ j => exact ih.mp hst j
    · intro h
      have h0 := h 0
      simp only [List.drop_zero] at h0
      simp only [scanFirst, h0, ih.mpr (fun k => h (k + 1))]
      rfl

theorem scanFirst_eq_some_of {α} {m : Text → Option α} {l : Text} {k : Nat} {a : α}
    (hk : k ≤ l.length) (hm : m (l.drop k) = some a)
    (hnone : ∀ j, j < k → m (l.drop j) = none) :
    scanFirst m l = some (l.take k, a) := by
  induction l generalizing k with
  | nil =>
    obtain rfl : k = 0 := Nat.le_zero.mp (by simpa using hk)
    simp only [List.drop_nil] at hm
    simp [scanFirst, hm]
  | cons c tl ih =>
    cases k with
    | zero => simp only [List.drop_zero] at hm; simp [scanFirst, hm]
    | succ j =>
      have h0 : m (c :: tl) = none := by simpa using hnone 0 (Nat.succ_pos j)
      have hrec := ih (k := j) (by simpa using hk) (by simpa using hm)
        (fun i hi => by simpa using hnone (i + 1) (by omega))
      simp [scanFirst, h0, hrec]

theorem scanFirst_some_elim {α} {m : Text → Option α} {l : Text} {pre : Text} {a : α}
    (h : scanFirst m l = some (pre, a)) :
    ∃ k, k ≤ l.length ∧ pre = l.take k ∧ m (l.drop k) = some a ∧
      ∀ j, j < k → m (l.drop j) = none := by
  induction l generalizing pre with
  | nil =>
    simp only [scanFirst] at h
    cases hm : m [] with
    | none => rw [hm] at h; simp at h
    | some b =>
      rw [hm] at h
      have h' : (([] : Text), b) = (pre, a) := by simpa using h
      rw [Prod.mk.injEq] at h'
      exact ⟨0, by simp, h'.1.symm, by simp [hm, h'.2], by omega⟩
  | cons c tl ih =>
    simp only [scanFirst] at h
    cases hm : m (c :: tl) with
    | some b =>
      rw [hm] at h
      have h' : (([] : Text), b) = (pre, a) := by simpa using h
      rw [Prod.mk.injEq] at h'
      exact ⟨0, by simp, h'.1.symm, by simp [hm, h'.2], by omega⟩
    | none =>
      rw [hm] at h
      cases hs : scanFirst m tl with
      | none => rw [hs] at h; simp at h
      | some pb =>
        rw [hs] at h
        have h' : (c :: pb.1, pb.2) = (pre, a) := by simpa using h
        rw [Prod.mk.injEq] at h'
        have hpb : scanFirst m tl = some (pb.1, a) := by rw [hs, ← h'.2]
        obtain ⟨k, hk, hpre, hmk, hnone⟩ := ih hpb
        refine ⟨k + 1, by simpa using hk, ?_, by simpa using hmk, ?_⟩
        · rw [← h'.1, hpre]; rfl
        · intro j hj
          cases j with
          | zero => exact hm
          | succ i => simpa using hnone i (by omega)

theorem scanFirst_append {α} {m : Text → Option α} {A R : Text} {b : α}
    (hA : ∀ k, k < A.length → m ((A ++ R).drop k) = none) (hR : m R = some b) :
    scanFirst m (A ++ R) = some (A, b) := by
  have h := scanFirst_eq_some_of (m := m) (l := A ++ R) (k := A.length)
    (by simp) (by rw [List.drop_left]; exact hR) hA
  rwa [List.take_left] at h

/-! ### `splitFirst` characterisations -/

theorem splitFirst_eq_none_iff {p t : Text} :
    splitFirst p t = none ↔ ∀ k, hasPre p (t.drop k) = false := by
  unfold splitFirst
  rw [scanFirst_eq_none_iff]
  constructor
  · intro h k
    have := h k
    rwa [litMatch_eq_none] at this
  · intro h k
    rw [litMatch_eq_none]
    exact h k

theorem splitFirst_some_elim {p t pre post : Text}
    (h : splitFirst p t = some (pre, post)) :
    t = pre ++ p ++ post ∧ ∀ j, j < pre.length → hasPre p (t.drop j) = false := by
  obtain ⟨k, hk, hpre, hmk, hnone⟩ := scanFirst_some_elim h
  have hdecomp := litMatch_eq_some hmk
  constructor
  · have : t = t.take k ++ t.drop k := (List.take_append_drop k t).symm
    rw [hdecomp, ← hpre] at this
    simpa [List.append_assoc] using this
  · intro j hj
    have : j < k := by
      have : pre.length = k := by
        rw [hpre, List.length_take]; omega
      omega
    have := hnone j this
    rwa [litMatch_eq_none] at this

/-! ### `noStartB`: no match of a pattern can begin inside a piece of text -/

theorem noStartB_parts {p u : Text} (h : noStartB p u = true) :
    splitFirst p u = none ∧
      ∀ m, 0 < m → m < p.length → hasSuf (p.take m) u = false := by
  unfold noStartB at h
  rw [Bool.and_eq_true] at h
  refine ⟨Option.isNone_iff_eq_none.mp h.1, ?_⟩
  intro m hm0 hmp
  have := List.all_eq_true.mp h.2 m (List.mem_range.mpr hmp)
  simp only [Bool.or_eq_true, decide_eq_true_eq, Bool.not_eq_true'] at this
  rcases this with h0 | h1
  · omega
  · exact h1

theorem noStartB_intro {p u : Text} (h1 : splitFirst p u = none)
    (h2 : ∀ m, 0 < m → m < p.length → hasSuf (p.take m) u = false) :
    noStartB p u = true := by
  unfold noStartB
  rw [Bool.and_eq_true]
  refine ⟨Option.isNone_iff_eq_none.mpr h1, ?_⟩
  rw [List.all_eq_true]
  intro m hm
  rw [List.mem_range] at hm
  simp only [Bool.or_eq_true, decide_eq_true_eq, Bool.not_eq_true']
  rcases Nat.eq_zero_or_pos m with h0 | h0
  · exact Or.inl h0
  · exact Or.inr (h2 m h0 hm)

theorem noStart_elim {p u : Text} (h : noStartB p u = true) (R : Text) {k : Nat}
    (hk : k < u.length) : hasPre p ((u ++ R).drop k) = false := by
  obtain ⟨hsp, hsuf⟩ := noStartB_parts h
  by_contra hcon
  rw [Bool.not_eq_false] at hcon
  rw [List.drop_append_of_le_length (Nat.le_of_lt hk)] at hcon
  rcases Nat.lt_or_ge (u.length - k) p.length with hlt | hge
  · have hlen : (u.drop k).length = u.length - k := List.length_drop k u
    have heq := eq_take_of_hasPre_append hcon (by rw [hlen]; exact hlt)
    rw [hlen] at heq
    have hsk : hasSuf (p.take (u.length - k)) u = true := by
      refine hasSuf_iff.mpr ⟨u.take k, ?_⟩
      conv_lhs => rw [← List.take_append_drop k u]
      rw [heq]
    have := hsuf (u.length - k) (by omega) hlt
    rw [this] at hsk
    exact absurd hsk (by simp)
  · have hp : hasPre p (u.drop k) = true :=
      hasPre_of_append_le hcon (by rw [List.length_drop]; exact hge)
    have := splitFirst_eq_none_iff.mp hsp k
    rw [this] at hp
    exact absurd hp (by simp)

theorem splitFirst_decomp {p A B : Text} (h : noStartB p A = true) :
    splitFirst p (A ++ (p ++ B)) = some (A, B) := by
  refine scanFirst_append ?_ (litMatch_self p B)
  intro k hk
  rw [litMatch_eq_none]
  exact noStart_elim h (p ++ B) hk

theorem noStartB_append {p u v : Text} (hu : noStartB p u = true)
    (hv : noStartB p v = true) : noStartB p (u ++ v) = true := by
  obtain ⟨hu1, hu2⟩ := noStartB_parts hu
  obtain ⟨hv1, hv2⟩ := noStartB_parts hv
  apply noStartB_intro
  · rw [splitFirst_eq_none_iff]
    intro k
    rcases Nat.lt_or_ge k u.length with hk | hk
    · exact noStart_elim hu v hk
    · have hd : (u ++ v).drop k = v.drop (k - u.length) := by
        conv_lhs => rw [show k = u.length + (k - u.length) by omega]
        exact List.drop_append _
      rw [hd]
      exact splitFirst_eq_none_iff.mp hv1 _
  · intro m hm0 hmp
    by_contra hcon
    rw [Bool.not_eq_false] at hcon
    obtain ⟨w, hw⟩ := hasSuf_iff.mp hcon
    have hlen : u.length + v.length = w.length + m := by
      have := congrArg List.length hw
      simp only [List.length_append, List.length_take] at this
      omega
    rcases le_or_lt m v.length with hmv | hmv
    · have hvs : v.drop (v.length - m) = p.take m := by
        have h1 : (u ++ v).drop w.length = p.take m := by
          rw [hw]; exact List.drop_left w _
        rw [show w.length = u.length + (v.length - m) by omega,
          List.drop_append] at h1
        exact h1
      have hsv : hasSuf (p.take m) v = true := by
        refine hasSuf_iff.mpr ⟨v.take (v.length - m), ?_⟩
        conv_lhs => rw [← List.take_append_drop (v.length - m) v]
        rw [hvs]
      have := hv2 m hm0 hmp
      rw [this] at hsv
      exact absurd hsv (by simp)
    · have hju : m - v.length ≤ u.length := by omega
      have h2 : (u ++ v).drop w.length = p.take m := by
        rw [hw]; exact List.drop_left w _
      rw [show w.length = u.length - (m - v.length) by omega,
        List.drop_append_of_le_length (by omega)] at h2
      have hlen2 : (u.drop (u.length - (m - v.length))).length = m - v.length := by
        rw [List.length_drop]; omega
      have h3 : (u.drop (u.length - (m - v.length)) ++ v).take (m - v.length)
          = u.drop (u.length - (m - v.length)) := by
        rw [List.take_append_of_le_length (by rw [hlen2])]
        exact List.take_of_length_le (by rw [hlen2])
      rw [h2, List.take_take, min_eq_left (by omega)] at h3
      have hsu : hasSuf (p.take (m - v.length)) u = true := by
        refine hasSuf_iff.mpr ⟨u.take (u.length - (m - v.length)), ?_⟩
        conv_lhs => rw [← List.take_append_drop (u.length - (m - v.length)) u]
        rw [← h3]
      have := hu2 (m - v.length) (by omega) (by omega)
      rw [this] at hsu
      exact absurd hsu (by simp)

/-! ### Evaluating `matchMeta` on a canonical comment -/

theorem takeWhile_append_not {p : Char → Bool} {f r : Text} {b : Char}
    (hf : ∀ c ∈ f, p c = true) (hb : p b = false) :
    (f ++ b :: r).takeWhile p = f := by
  induction f with
  | nil => simp [List.takeWhile_cons, hb]
  | cons a as ih =>
    rw [List.cons_append, List.takeWhile_cons, hf a (by simp)]
    simp only [if_true]
    rw [ih (fun c hc => hf c (by simp [hc]))]

theorem dropWhile_append_not {p : Char → Bool} {f r : Text} {b : Char}
    (hf : ∀ c ∈ f, p c = true) (hb : p b = false) :
    (f ++ b :: r).dropWhile p = b :: r := by
  induction f with
  | nil => simp [List.dropWhile_cons, hb]
  | cons a as ih =>
    rw [List.cons_append, List.dropWhile_cons, hf a (by simp)]
    simp only [if_true]
    exact ih (fun c hc => hf c (by simp [hc]))

theorem matchMeta_canonical {f t : Text} (hf : ¬ f = []) (hfq : ∀ c ∈ f, ¬ c = '"')
    (ht : ¬ t = []) (htq : ∀ c ∈ t, ¬ c = '"') (R : Text) :
    matchMeta (metaComment f t ++ R) = some R := by
  have hl : metaComment f t ++ R =
      txt "<!-- LATEST_META file=\"" ++
        (f ++ (txt "\" title=\"" ++ (t ++ (txt "\" -->" ++ R)))) := by
    simp [metaComment, List.append_assoc]
  have s1 : litMatch cOpen
      (txt "<!-- LATEST_META file=\"" ++
        (f ++ (txt "\" title=\"" ++ (t ++ (txt "\" -->" ++ R)))))
      = some (txt " LATEST_META file=\"" ++
        (f ++ (txt "\" title=\"" ++ (t ++ (txt "\" -->" ++ R))))) := rfl
  have s2 : (txt " LATEST_META file=\"" ++
        (f ++ (txt "\" title=\"" ++ (t ++ (txt "\" -->" ++ R))))).dropWhile pyIsSpace
      = txt "LATEST_META file=\"" ++
        (f ++ (txt "\" title=\"" ++ (t ++ (txt "\" -->" ++ R)))) := rfl
  have s3 : litMatch (txt "LATEST_META")
      (txt "LATEST_META file=\"" ++
        (f ++ (txt "\" title=\"" ++ (t ++ (txt "\" -->" ++ R)))))
      = some (txt " file=\"" ++
        (f ++ (txt "\" title=\"" ++ (t ++ (txt "\" -->" ++ R))))) := rfl
  have s4 : wsPlus (txt " file=\"" ++
        (f ++ (txt "\" title=\"" ++ (t ++ (txt "\" -->" ++ R)))))
      = some (txt "file=\"" ++
        (f ++ (txt "\" title=\"" ++ (t ++ (txt "\" -->" ++ R))))) := rfl
  have s5 : litMatch (txt "file=\"")
      (txt "file=\"" ++ (f ++ (txt "\" title=\"" ++ (t ++ (txt "\" -->" ++ R)))))
      = some (f ++ (txt "\" title=\"" ++ (t ++ (txt "\" -->" ++ R)))) :=
    litMatch_self _ _
  have hq : ∀ c ∈ f, (fun c => !(c = '"')) c = true := by
    intro c hc; simpa using hfq c hc
  have hq' : (fun c => !(c = '"')) '"' = false := by simp
  have hcons1 : txt "\" title=\"" ++ (t ++ (txt "\" -->" ++ R))
      = '"' :: (txt " title=\"" ++ (t ++ (txt "\" -->" ++ R))) := rfl
  have s6 : (f ++ (txt "\" title=\"" ++ (t ++ (txt "\" -->" ++ R)))).takeWhile
      (fun c => !(c = '"')) = f := by
    rw [hcons1]; exact takeWhile_append_not hq hq'
  have s7 : (f ++ (txt "\" title=\"" ++ (t ++ (txt "\" -->" ++ R)))).dropWhile
      (fun c => !(c = '"')) = '"' :: (txt " title=\"" ++ (t ++ (txt "\" -->" ++ R))) := by
    rw [hcons1]; exact dropWhile_append_not hq hq'
  have s8 : litMatch (txt "\"") ('"' :: (txt " title=\"" ++ (t ++ (txt "\" -->" ++ R))))
      = some (txt " title=\"" ++ (t ++ (txt "\" -->" ++ R))) := rfl
  have s9 : wsPlus (txt " title=\"" ++ (t ++ (txt "\" -->" ++ R)))
      = some (txt "title=\"" ++ (t ++ (txt "\" -->" ++ R))) := rfl
  have s10 : litMatch (txt "title=\"") (txt "title=\"" ++ (t ++ (txt "\" -->" ++ R)))
      = some (t ++ (txt "\" -->" ++ R)) := litMatch_self _ _
  have htq' : ∀ c ∈ t, (fun c => !(c = '"')) c = true := by
    intro c hc; simpa using htq c hc
  have hcons2 : txt "\" -->" ++ R = '"' :: (txt " -->" ++ R) := rfl
  have s11 : (t ++ (txt "\" -->" ++ R)).takeWhile (fun c => !(c = '"')) = t := by
    rw [hcons2]; exact takeWhile_append_not htq' hq'
  have s12 : (t ++ (txt "\" -->" ++ R)).dropWhile (fun c => !(c = '"'))
      = '"' :: (txt " -->" ++ R) := by
    rw [hcons2]; exact dropWhile_append_not htq' hq'
  have s13 : litMatch (txt "\"") ('"' :: (txt " -->" ++ R))
      = some (txt " -->" ++ R) := rfl
  have s14 : (txt " -->" ++ R).dropWhile pyIsSpace = txt "-->" ++ R := rfl
  have s15 : litMatch (txt "-->") (txt "-->" ++ R) = some R := by
    have := litMatch_self (txt "-->") R
    simpa using this
  have hfe : f.isEmpty = false := by cases f with
    | nil => exact absurd rfl hf
    | cons a as => rfl
  have hte : t.isEmpty = false := by cases t with
    | nil => exact absurd rfl ht
    | cons a as => rfl
  rw [hl]
  unfold matchMeta
  rw [s1]
  simp only [s2, s3, s4, s5, s6, s7, s8, s9, s10, s11, s12, s13, s14, s15, hfe, hte,
    Bool.false_eq_true, if_false]

/-- Structure of any `matchMeta` match: it begins with the comment opener,
then a whitespace run, then the literal `LATEST_META`. -/
theorem matchMeta_elim {l rr : Text} (h : matchMeta l = some rr) :
    ∃ w rest2, l = cOpen ++ (w ++ rest2) ∧ (∀ c ∈ w, pyIsSpace c = true) ∧
      hasPre (txt "LATEST_META") rest2 = true := by
  unfold matchMeta at h
  cases h1 : litMatch cOpen l with
  | none => rw [h1] at h; simp at h
  | some r1 =>
    cases h2 : litMatch (txt "LATEST_META") (r1.dropWhile pyIsSpace) with
    | none => rw [h1] at h; simp [h2] at h
    | some r3 =>
      refine ⟨r1.takeWhile pyIsSpace, r1.dropWhile pyIsSpace, ?_, ?_, ?_⟩
      · rw [litMatch_eq_some h1]
        exact congrArg (cOpen ++ ·) (List.takeWhile_append_dropWhile pyIsSpace r1).symm
      · intro c hc
        exact List.mem_takeWhile_imp hc
      · cases hp : hasPre (txt "LATEST_META") (r1.dropWhile pyIsSpace) with
        | true => rfl
        | false =>
          rw [litMatch_eq_none.mpr hp] at h2
          exact absurd h2 (by simp)

/-- If no occurrence of the text `LATEST_META` can start inside `P0` and the
following text begins with `<`, then no `LATEST_META_RE` match can start
inside `P0` either: the opener `<!--` of such a match cannot straddle into a
`<`, its whitespace run cannot cross the non-space `<`, and the literal
`LATEST_META` of the match would otherwise have to start inside `P0`.  This
lets arbitrary benign comments appear in `P0`. -/
theorem no_matchMeta_before {P0 R : Text}
    (hP0 : noStartB (txt "LATEST_META") P0 = true)
    (hR : hasPre (txt "<") R = true) :
    ∀ k, k < P0.length → matchMeta ((P0 ++ R).drop k) = none := by
  intro k hk
  cases hmm : matchMeta ((P0 ++ R).drop k) with
  | none => rfl
  | some rr =>
    exfalso
    obtain ⟨w, rest2, hdec, hws, hLM⟩ := matchMeta_elim hmm
    have hsplit : (P0 ++ R).drop k = P0.drop k ++ R :=
      List.drop_append_of_le_length (Nat.le_of_lt hk)
    have hdlen : (P0.drop k).length = P0.length - k := List.length_drop k P0
    have hcomb : P0.drop k ++ R = cOpen ++ (w ++ rest2) := by rw [← hsplit, hdec]
    have hco : cOpen.length = 4 := rfl
    have hR' : R = (cOpen ++ (w ++ rest2)).drop (P0.length - k) := by
      have h0 := congrArg (List.drop (P0.drop k).length) hcomb
      rw [List.drop_left, hdlen] at h0
      exact h0
    rcases lt_or_ge (P0.length - k) 4 with h4 | h4
    · have hd1 : 1 ≤ P0.length - k := by omega
      have hfalse : hasPre (txt "<") R = false := by
        rw [hR', List.drop_append_of_le_length (by omega)]
        interval_cases h : P0.length - k
        all_goals rfl
      rw [hfalse] at hR
      exact absurd hR (by simp)
    · rcases lt_or_ge (P0.length - k) (4 + w.length) with h4w | h4w
      · have hR2 : R = (w ++ rest2).drop (P0.length - k - 4) := by
          rw [hR']
          conv_lhs => rw [show P0.length - k = cOpen.length + (P0.length - k - 4) by omega]
          exact List.drop_append _
        have hlt : P0.length - k - 4 < w.length := by omega
        have hR3 : R = w.drop (P0.length - k - 4) ++ rest2 := by
          rw [hR2, List.drop_append_of_le_length (Nat.le_of_lt hlt)]
        obtain ⟨x, hx⟩ := hasPre_iff.mp hR
        cases hwd : w.drop (P0.length - k - 4) with
        | nil =>
          have hwl := List.length_drop (P0.length - k - 4) w
          rw [hwd] at hwl
          simp at hwl
          omega
        | cons ch tl =>
          have hch : ch ∈ w := by
            have hmem : ch ∈ w.drop (P0.length - k - 4) := by rw [hwd]; simp
            exact List.mem_of_mem_drop hmem
          have hsp := hws ch hch
          rw [hwd] at hR3
          have hcc : ('<' :: x : Text) = ch :: (tl ++ rest2) := by
            have h0 := hx.symm.trans hR3
            exact h0
          injection hcc with hch1 hch2
          rw [← hch1] at hsp
          exact absurd hsp (by decide)
      · rcases Nat.eq_or_lt_of_le h4w with heq | hgt
        · have hR2 : R = rest2 := by
            rw [hR', ← List.append_assoc]
            conv_lhs =>
              rw [show P0.length - k = (cOpen ++ w).length by
                rw [List.length_append, hco]; omega]
            exact List.drop_left _ _
          obtain ⟨x, hx⟩ := hasPre_iff.mp hR
          obtain ⟨y, hy⟩ := hasPre_iff.mp hLM
          rw [hR2] at hx
          have hcc : ('L' :: (txt "ATEST_META" ++ y) : Text) = '<' :: x := by
            have h0 := hy.symm.trans hx
            exact h0
          injection hcc with hch1 hch2
          exact absurd hch1 (by decide)
        · have hq : (P0 ++ R).drop (k + (4 + w.length)) = rest2 := by
            have h0 : (P0 ++ R).drop (k + (4 + w.length))
                = ((P0 ++ R).drop k).drop (4 + w.length) := by
              rw [List.drop_drop]
            rw [h0, hdec, ← List.append_assoc]
            conv_lhs =>
              rw [show 4 + w.length = (cOpen ++ w).length by
                rw [List.length_append, hco]]
            exact List.drop_left _ _
          have hfalse := noStart_elim hP0 R
            (show k + (4 + w.length) < P0.length by omega)
          rw [hq] at hfalse
          rw [hfalse] at hLM
          exact absurd hLM (by simp)

/-! ### Splicing a decomposed document -/

theorem hasPre_append_right {p w v : Text} (h : hasPre p w = true) :
    hasPre p (w ++ v) = true := by
  obtain ⟨s, rfl⟩ := hasPre_iff.mp h
  exact hasPre_iff.mpr ⟨s ++ v, by simp⟩

theorem containsB_eq_true_iff {p t : Text} :
    containsB p t = true ↔ ∃ k, hasPre p (t.drop k) = true := by
  have h1 : containsB p t = true ↔ ¬(splitFirst p t = none) := by
    unfold containsB; cases splitFirst p t <;> simp
  rw [h1, splitFirst_eq_none_iff]
  constructor
  · intro h
    by_contra hc
    push_neg at hc
    exact h (fun k => Bool.not_eq_true _ ▸ (Bool.eq_false_iff.mpr (hc k)))
  · rintro ⟨k, hk⟩ hall
    have := hall k
    rw [hk] at this
    exact absurd this (by simp)

theorem containsB_here {p w : Text} : containsB p (p ++ w) = true :=
  containsB_eq_true_iff.mpr ⟨0, by simpa using hasPre_append p w⟩

theorem containsB_append_right {p u v : Text} (h : containsB p v = true) :
    containsB p (u ++ v) = true := by
  obtain ⟨k, hk⟩ := containsB_eq_true_iff.mp h
  refine containsB_eq_true_iff.mpr ⟨u.length + k, ?_⟩
  rwa [List.drop_append]

theorem containsB_append_left {p u v : Text} (h : containsB p u = true) :
    containsB p (u ++ v) = true := by
  obtain ⟨k, hk⟩ := containsB_eq_true_iff.mp h
  rcases le_or_lt u.length k with hku | hku
  · rw [List.drop_eq_nil_of_le hku] at hk
    refine containsB_eq_true_iff.mpr ⟨u.length + 0, ?_⟩
    rw [List.drop_append]
    cases p with
    | nil => simp [hasPre]
    | cons a as => simp [hasPre] at hk
  · refine containsB_eq_true_iff.mpr ⟨k, ?_⟩
    rw [List.drop_append_of_le_length (Nat.le_of_lt hku)]
    exact hasPre_append_right hk

/-- `u` contains no backslash, so `re.subn` uses a block built from it as a
literal replacement (no template processing). -/
def noBS (u : Text) : Bool := !(u.any (fun c => c = '\\'))

theorem containsB_singleton_false {c : Char} {t : Text}
    (h : t.any (fun x => x = c) = false) : containsB [c] t = false := by
  cases hs : splitFirst [c] t with
  | none => simp [containsB, hs]
  | some pr =>
    exfalso
    obtain ⟨pre, post⟩ := pr
    have hdec := (splitFirst_some_elim hs).1
    have hmem : c ∈ t := by rw [hdec]; simp
    have hcon : t.any (fun x => x = c) = true := List.any_eq_true.mpr ⟨c, hmem, by simp⟩
    rw [h] at hcon
    exact absurd hcon (by simp)

theorem compileRepl_lit {t : Text} (h : noBS t = true) :
    compileRepl t = Except.ok [ReplChunk.lit t] := by
  have h' : t.any (fun x => x = '\\') = false := by
    simpa [noBS, Bool.not_eq_true'] using h
  have hc : containsB (txt "\\") t = false := containsB_singleton_false h'
  unfold compileRepl
  rw [if_neg (by simp [hc])]

theorem noBS_append {u v : Text} (hu : noBS u = true) (hv : noBS v = true) :
    noBS (u ++ v) = true := by
  simp only [noBS, Bool.not_eq_true'] at hu hv ⊢
  rw [List.any_append, hu, hv]
  rfl

theorem noBS_pyRstrip {r : Text} (h : noBS r = true) : noBS (pyRstrip r) = true := by
  simp only [noBS, Bool.not_eq_true'] at h ⊢
  cases ha : (pyRstrip r).any (fun c => c = '\\') with
  | false => rfl
  | true =>
    exfalso
    obtain ⟨x, hx, hxc⟩ := List.any_eq_true.mp ha
    simp only [pyRstrip] at hx
    rw [List.mem_reverse] at hx
    have hx' : x ∈ r := by
      have h2 : x ∈ r.reverse := (List.dropWhile_sublist _).subset hx
      rwa [List.mem_reverse] at h2
    have hcon : r.any (fun c => c = '\\') = true := List.any_eq_true.mpr ⟨x, hx', hxc⟩
    rw [h] at hcon
    exact absurd hcon (by simp)

theorem replace_between_markers_decomp {s e A M B r : Text}
    (hA : noStartB s A = true) (hM : noStartB e M = true)
    (hs : noBS s = true) (he : noBS e = true) (hr : noBS (pyRstrip r) = true) :
    replace_between_markers (A ++ (s ++ (M ++ (e ++ B)))) s e r
      = .ok (A ++ s ++ txt "\n" ++ pyRstrip r ++ txt "\n  " ++ e ++ B) := by
  have hbs : noBS (s ++ txt "\n" ++ pyRstrip r ++ txt "\n  " ++ e) = true :=
    noBS_append (noBS_append (noBS_append (noBS_append hs (by decide)) hr)
      (by decide)) he
  unfold replace_between_markers
  rw [compileRepl_lit hbs]
  simp only [splitFirst_decomp hA, splitFirst_decomp hM]
  simp [expandRepl, List.append_assoc]

theorem update_latest_meta_decomp {P0 f0 t0 R : Text} {info : EntryInfo}
    (hP0 : noStartB (txt "LATEST_META") P0 = true)
    (hf0 : ¬ f0 = []) (hf0q : ∀ c ∈ f0, ¬ c = '"')
    (ht0 : ¬ t0 = []) (ht0q : ∀ c ∈ t0, ¬ c = '"') :
    update_latest_meta (P0 ++ (metaComment f0 t0 ++ R)) info
      = .ok (P0 ++ metaComment info.rel_path info.title_line ++ R) := by
  unfold update_latest_meta
  rw [scanFirst_append
    (no_matchMeta_before (R := metaComment f0 t0 ++ R) hP0 rfl)
    (matchMeta_canonical hf0 hf0q ht0 ht0q R)]

/-- `onceB p t`: `p` occurs in `t`, and only once (no further occurrence after
the first one). -/
def onceB (p t : Text) : Bool :=
  match splitFirst p t with
  | some pr => !(containsB p pr.2)
  | none => false

theorem onceB_decomp {p A B : Text} (hA : noStartB p A = true)
    (hB : noStartB p B = true) : onceB p (A ++ (p ++ B)) = true := by
  unfold onceB
  rw [splitFirst_decomp hA]
  simp [containsB, (noStartB_parts hB).1]

/-! ### The canonical home-page shape and the publish pipeline on it -/

/-- A home page split around its sentinel comments: leading text, a well-formed
metadata comment with fields `f0`/`t0`, then the two marker pairs with region
contents `X` and `Y`, with `P1`–`P3` the text in between. -/
def homeShape (P0 f0 t0 P1 X P2 Y P3 : Text) : Text :=
  P0 ++ (metaComment f0 t0 ++ (P1 ++ (LATEST_START ++ (X ++ (LATEST_END ++
    (P2 ++ (ARCHIVE_START ++ (Y ++ (ARCHIVE_END ++ P3)))))))))

theorem ensure_markers_homeShape (P0 f0 t0 P1 X P2 Y P3 : Text) :
    ensure_markers_exist (homeShape P0 f0 t0 P1 X P2 Y P3) = .ok () := by
  have hAS : containsB ARCHIVE_START (homeShape P0 f0 t0 P1 X P2 Y P3) = true := by
    unfold homeShape
    exact containsB_append_right (containsB_append_right (containsB_append_right
      (containsB_append_right (containsB_append_right (containsB_append_right
        (containsB_append_right containsB_here))))))
  have hAE : containsB ARCHIVE_END (homeShape P0 f0 t0 P1 X P2 Y P3) = true := by
    unfold homeShape
    exact containsB_append_right (containsB_append_right (containsB_append_right
      (containsB_append_right (containsB_append_right (containsB_append_right
        (containsB_append_right (containsB_append_right (containsB_append_right
          containsB_here))))))))
  have hLS : containsB LATEST_START (homeShape P0 f0 t0 P1 X P2 Y P3) = true := by
    unfold homeShape
    exact containsB_append_right (containsB_append_right (containsB_append_right
      containsB_here))
  have hLE : containsB LATEST_END (homeShape P0 f0 t0 P1 X P2 Y P3) = true := by
    unfold homeShape
    exact containsB_append_right (containsB_append_right (containsB_append_right
      (containsB_append_right (containsB_append_right containsB_here))))
  have hMeta : containsB (txt "LATEST_META") (homeShape P0 f0 t0 P1 X P2 Y P3) = true := by
    unfold homeShape
    refine containsB_append_right (containsB_append_left ?_)
    unfold metaComment
    exact containsB_append_left (containsB_append_left (containsB_append_left
      (containsB_append_left (by decide))))
  unfold ensure_markers_exist
  rw [hAS, hAE, hLS, hLE, hMeta]
  simp

theorem noStartB_metaComment {p f t : Text}
    (h1 : noStartB p (txt "<!-- LATEST_META file=\"") = true)
    (h2 : noStartB p (txt "\" title=\"") = true)
    (h3 : noStartB p (txt "\" -->") = true)
    (hf : noStartB p f = true) (ht : noStartB p t = true) :
    noStartB p (metaComment f t) = true := by
  unfold metaComment
  exact noStartB_append (noStartB_append (noStartB_append (noStartB_append h1
    hf) h2) ht) h3

/-- No occurrence of any of the four sentinel markers can begin inside `u` —
the piecewise form of "the marker pairs occur exactly once" for the texts
around and between the markers.  Benign HTML comments satisfy it: they are
not marker occurrences and cannot start a straddling one. -/
def markerFree (u : Text) : Bool :=
  noStartB LATEST_START u && noStartB LATEST_END u &&
    noStartB ARCHIVE_START u && noStartB ARCHIVE_END u

theorem markerFree_parts {u : Text} (h : markerFree u = true) :
    noStartB LATEST_START u = true ∧ noStartB LATEST_END u = true ∧
      noStartB ARCHIVE_START u = true ∧ noStartB ARCHIVE_END u = true := by
  unfold markerFree at h
  simp only [Bool.and_eq_true] at h
  exact ⟨h.1.1.1, h.1.1.2, h.1.2, h.2⟩

theorem markerFree_append {u v : Text} (hu : markerFree u = true)
    (hv : markerFree v = true) : markerFree (u ++ v) = true := by
  obtain ⟨hu1, hu2, hu3, hu4⟩ := markerFree_parts hu
  obtain ⟨hv1, hv2, hv3, hv4⟩ := markerFree_parts hv
  unfold markerFree
  simp only [Bool.and_eq_true]
  exact ⟨⟨⟨noStartB_append hu1 hv1, noStartB_append hu2 hv2⟩,
    noStartB_append hu3 hv3⟩, noStartB_append hu4 hv4⟩

theorem markerFree_metaComment {f t : Text} (hf : markerFree f = true)
    (ht : markerFree t = true) : markerFree (metaComment f t) = true := by
  obtain ⟨hf1, hf2, hf3, hf4⟩ := markerFree_parts hf
  obtain ⟨ht1, ht2, ht3, ht4⟩ := markerFree_parts ht
  unfold markerFree
  simp only [Bool.and_eq_true]
  exact ⟨⟨⟨noStartB_metaComment (by decide) (by decide) (by decide) hf1 ht1,
    noStartB_metaComment (by decide) (by decide) (by decide) hf2 ht2⟩,
    noStartB_metaComment (by decide) (by decide) (by decide) hf3 ht3⟩,
    noStartB_metaComment (by decide) (by decide) (by decide) hf4 ht4⟩

theorem publish_shape
    (P0 P1 P2 P3 X Y f0 t0 entryRel content article : Text) (info : EntryInfo)
    (files : List (Text × Text))
    (hlook : lookupFile files entryRel = some content)
    (hart : extract_latest_article_from_entry content = Except.ok article)
    (hinfo : extract_entry_info entryRel content = Except.ok info)
    (hf0 : ¬ f0 = []) (hf0q : ∀ c ∈ f0, ¬ c = '"')
    (ht0 : ¬ t0 = []) (ht0q : ∀ c ∈ t0, ¬ c = '"')
    (hrelm : markerFree info.rel_path = true) (htlm : markerFree info.title_line = true)
    (hP0m : noStartB (txt "LATEST_META") P0 = true)
    (hP0 : markerFree P0 = true) (hP1 : markerFree P1 = true)
    (hP2 : markerFree P2 = true)
    (hX : markerFree X = true) (hY : markerFree Y = true)
    (hartm : markerFree (pyRstrip (txt "  " ++ replaceNl article)) = true)
    (hartbs : noBS (pyRstrip (txt "  " ++ replaceNl article)) = true)
    (harchbs : noBS (pyRstrip (build_archive_ul (list_entries files))) = true) :
    cmd_publish ⟨some (homeShape P0 f0 t0 P1 X P2 Y P3), files⟩ entryRel
      = Except.ok (homeShape P0 info.rel_path info.title_line P1
          (txt "\n" ++ (pyRstrip (txt "  " ++ replaceNl article) ++ txt "\n  "))
          P2
          (txt "\n" ++ (pyRstrip (build_archive_ul (list_entries files)) ++ txt "\n  "))
          P3) := by
  obtain ⟨rel1, _, rel3, _⟩ := markerFree_parts hrelm
  obtain ⟨tl1, _, tl3, _⟩ := markerFree_parts htlm
  obtain ⟨p01, _, p03, _⟩ := markerFree_parts hP0
  obtain ⟨p11, _, p13, _⟩ := markerFree_parts hP1
  obtain ⟨_, _, p23, _⟩ := markerFree_parts hP2
  obtain ⟨_, x2, _, _⟩ := markerFree_parts hX
  obtain ⟨_, _, _, y4⟩ := markerFree_parts hY
  obtain ⟨_, _, a3, _⟩ := markerFree_parts hartm
  have e1 := ensure_markers_homeShape P0 f0 t0 P1 X P2 Y P3
  have e2 : update_latest_meta (homeShape P0 f0 t0 P1 X P2 Y P3) info
      = .ok (homeShape P0 info.rel_path info.title_line P1 X P2 Y P3) := by
    unfold homeShape
    rw [update_latest_meta_decomp hP0m hf0 hf0q ht0 ht0q]
    congr 1
    simp [List.append_assoc]
  have e3 : replace_between_markers
      (homeShape P0 info.rel_path info.title_line P1 X P2 Y P3)
      LATEST_START LATEST_END (txt "  " ++ replaceNl article)
      = .ok (homeShape P0 info.rel_path info.title_line P1
          (txt "\n" ++ (pyRstrip (txt "  " ++ replaceNl article) ++ txt "\n  "))
          P2 Y P3) := by
    have hre : homeShape P0 info.rel_path info.title_line P1 X P2 Y P3
        = (P0 ++ (metaComment info.rel_path info.title_line ++ P1)) ++
          (LATEST_START ++ (X ++ (LATEST_END ++ (P2 ++ (ARCHIVE_START ++
            (Y ++ (ARCHIVE_END ++ P3))))))) := by
      simp [homeShape, List.append_assoc]
    have hA : noStartB LATEST_START
        (P0 ++ (metaComment info.rel_path info.title_line ++ P1)) = true :=
      noStartB_append p01
        (noStartB_append
          (noStartB_metaComment (by decide) (by decide) (by decide) rel1 tl1)
          p11)
    rw [hre, replace_between_markers_decomp hA x2 (by decide) (by decide) hartbs]
    congr 1
    simp [homeShape, List.append_assoc]
  have e4 : replace_between_markers
      (homeShape P0 info.rel_path info.title_line P1
        (txt "\n" ++ (pyRstrip (txt "  " ++ replaceNl article) ++ txt "\n  "))
        P2 Y P3)
      ARCHIVE_START ARCHIVE_END (build_archive_ul (list_entries files))
      = .ok (homeShape P0 info.rel_path info.title_line P1
          (txt "\n" ++ (pyRstrip (txt "  " ++ replaceNl article) ++ txt "\n  "))
          P2
          (txt "\n" ++ (pyRstrip (build_archive_ul (list_entries files)) ++ txt "\n  "))
          P3) := by
    have hre : homeShape P0 info.rel_path info.title_line P1
        (txt "\n" ++ (pyRstrip (txt "  " ++ replaceNl article) ++ txt "\n  "))
        P2 Y P3
        = (P0 ++ (metaComment info.rel_path info.title_line ++ (P1 ++
            (LATEST_START ++ ((txt "\n" ++ (pyRstrip (txt "  " ++ replaceNl article)
              ++ txt "\n  ")) ++ (LATEST_END ++ P2)))))) ++
          (ARCHIVE_START ++ (Y ++ (ARCHIVE_END ++ P3))) := by
      simp [homeShape, List.append_assoc]
    have hA : noStartB ARCHIVE_START
        (P0 ++ (metaComment info.rel_path info.title_line ++ (P1 ++
          (LATEST_START ++ ((txt "\n" ++ (pyRstrip (txt "  " ++ replaceNl article)
            ++ txt "\n  ")) ++ (LATEST_END ++ P2)))))) = true := by
      refine noStartB_append p03 ?_
      refine noStartB_append
        (noStartB_metaComment (by decide) (by decide) (by decide) rel3 tl3) ?_
      refine noStartB_append p13 ?_
      refine noStartB_append (by decide) ?_
      refine noStartB_append ?_ ?_
      · exact noStartB_append (by decide) (noStartB_append a3 (by decide))
      · exact noStartB_append (by decide) p23
    rw [hre, replace_between_markers_decomp hA y4 (by decide) (by decide) harchbs]
    congr 1
    simp [homeShape, List.append_assoc]
  simp only [cmd_publish, hlook, e1, hart, hinfo, e2, e3, e4, bind, Except.bind, pure,
    Except.pure]

/-- The home page produced by a successful publish: metadata comment fields
from the entry, the two regions holding the indented article and the archive
block, both as `replace_between_markers` lays them out. -/
def publishedShape (P0 P1 P2 P3 : Text) (info : EntryInfo) (article arch : Text) : Text :=
  homeShape P0 info.rel_path info.title_line P1
    (txt "\n" ++ (pyRstrip (txt "  " ++ replaceNl article) ++ txt "\n  ")) P2
    (txt "\n" ++ (pyRstrip arch ++ txt "\n  ")) P3

theorem onceB_homeShape (P0 f t P1 X P2 Y P3 : Text)
    (hf : markerFree f = true) (ht : markerFree t = true)
    (hP0 : markerFree P0 = true) (hP1 : markerFree P1 = true)
    (hP2 : markerFree P2 = true) (hP3 : markerFree P3 = true)
    (hX : markerFree X = true) (hY : markerFree Y = true) :
    onceB LATEST_START (homeShape P0 f t P1 X P2 Y P3) = true ∧
    onceB LATEST_END (homeShape P0 f t P1 X P2 Y P3) = true ∧
    onceB ARCHIVE_START (homeShape P0 f t P1 X P2 Y P3) = true ∧
    onceB ARCHIVE_END (homeShape P0 f t P1 X P2 Y P3) = true := by
  obtain ⟨f1, f2, f3, f4⟩ := markerFree_parts hf
  obtain ⟨t1, t2, t3, t4⟩ := markerFree_parts ht
  obtain ⟨p01, p02, p03, p04⟩ := markerFree_parts hP0
  obtain ⟨p11, p12, p13, p14⟩ := markerFree_parts hP1
  obtain ⟨p21, p22, p23, p24⟩ := markerFree_parts hP2
  obtain ⟨p31, p32, p33, p34⟩ := markerFree_parts hP3
  obtain ⟨x1, x2, x3, x4⟩ := markerFree_parts hX
  obtain ⟨y1, y2, y3, y4⟩ := markerFree_parts hY
  refine ⟨?_, ?_, ?_, ?_⟩
  · have hre : homeShape P0 f t P1 X P2 Y P3
        = (P0 ++ (metaComment f t ++ P1)) ++ (LATEST_START ++ (X ++ (LATEST_END ++
            (P2 ++ (ARCHIVE_START ++ (Y ++ (ARCHIVE_END ++ P3))))))) := by
      simp [homeShape, List.append_assoc]
    rw [hre]
    refine onceB_decomp ?_ ?_
    · exact noStartB_append p01
        (noStartB_append
          (noStartB_metaComment (by decide) (by decide) (by decide) f1 t1)
          p11)
    · exact noStartB_append x1 (noStartB_append (by decide)
        (noStartB_append p21 (noStartB_append (by decide)
          (noStartB_append y1 (noStartB_append (by decide) p31)))))
  · have hre : homeShape P0 f t P1 X P2 Y P3
        = (P0 ++ (metaComment f t ++ (P1 ++ (LATEST_START ++ X)))) ++
          (LATEST_END ++ (P2 ++ (ARCHIVE_START ++ (Y ++ (ARCHIVE_END ++ P3))))) := by
      simp [homeShape, List.append_assoc]
    rw [hre]
    refine onceB_decomp ?_ ?_
    · exact noStartB_append p02
        (noStartB_append
          (noStartB_metaComment (by decide) (by decide) (by decide) f2 t2)
          (noStartB_append p12
            (noStartB_append (by decide) x2)))
    · exact noStartB_append p22 (noStartB_append (by decide)
        (noStartB_append y2 (noStartB_append (by decide) p32)))
  · have hre : homeShape P0 f t P1 X P2 Y P3
        = (P0 ++ (metaComment f t ++ (P1 ++ (LATEST_START ++ (X ++ (LATEST_END ++
            P2)))))) ++ (ARCHIVE_START ++ (Y ++ (ARCHIVE_END ++ P3))) := by
      simp [homeShape, List.append_assoc]
    rw [hre]
    refine onceB_decomp ?_ ?_
    · exact noStartB_append p03
        (noStartB_append
          (noStartB_metaComment (by decide) (by decide) (by decide) f3 t3)
          (noStartB_append p13
            (noStartB_append (by decide) (noStartB_append x3
              (noStartB_append (by decide) p23)))))
    · exact noStartB_append y3
        (noStartB_append (by decide) p33)
  · have hre : homeShape P0 f t P1 X P2 Y P3
        = (P0 ++ (metaComment f t ++ (P1 ++ (LATEST_START ++ (X ++ (LATEST_END ++
            (P2 ++ (ARCHIVE_START ++ Y)))))))) ++ (ARCHIVE_END ++ P3) := by
      simp [homeShape, List.append_assoc]
    rw [hre]
    refine onceB_decomp ?_ ?_
    · exact noStartB_append p04
        (noStartB_append
          (noStartB_metaComment (by decide) (by decide) (by decide) f4 t4)
          (noStartB_append p14
            (noStartB_append (by decide) (noStartB_append x4
              (noStartB_append (by decide) (noStartB_append p24
                (noStartB_append (by decide) y4)))))))
    · exact p34

/-- C3 (amended): publishing the same entry twice in succession yields a home
page identical after the second run to after the first run, with each marker
occurring exactly once, provided the home page decomposes around a well-formed
metadata comment (nonempty, quote-free fields) and unique marker pairs — made
piecewise as: no marker occurrence can start inside the surrounding text, the
published path/title, the entry's article block or the rendered archive
(`markerFree`), and the text before the metadata comment cannot start the
literal `LATEST_META` — and provided the article block and the archive
contain no backslash (else `re.subn`'s template processing rewrites them or
raises `re.error` instead of publishing).  Benign HTML comments anywhere in
the page or the article satisfy all of these.  Without the marker
restriction the claim fails (see the counterexample): an entry whose article
contains a marker string makes the second run splice at the embedded marker
and duplicate content. -/
theorem C3_publish_twice_idempotent
    (P0 P1 P2 P3 X Y f0 t0 entryRel content article : Text) (info : EntryInfo)
    (files : List (Text × Text))
    (hlook : lookupFile files entryRel = some content)
    (hart : extract_latest_article_from_entry content = Except.ok article)
    (hinfo : extract_entry_info entryRel content = Except.ok info)
    (hf0 : ¬ f0 = []) (hf0q : ∀ c ∈ f0, ¬ c = '"')
    (ht0 : ¬ t0 = []) (ht0q : ∀ c ∈ t0, ¬ c = '"')
    (hrel : ¬ info.rel_path = []) (hrelq : ∀ c ∈ info.rel_path, ¬ c = '"')
    (hrelm : markerFree info.rel_path = true)
    (htl : ¬ info.title_line = []) (htlq : ∀ c ∈ info.title_line, ¬ c = '"')
    (htlm : markerFree info.title_line = true)
    (hP0m : noStartB (txt "LATEST_META") P0 = true)
    (hP0 : markerFree P0 = true) (hP1 : markerFree P1 = true)
    (hP2 : markerFree P2 = true) (hP3 : markerFree P3 = true)
    (hX : markerFree X = true) (hY : markerFree Y = true)
    (hartm : markerFree (pyRstrip (txt "  " ++ replaceNl article)) = true)
    (hartbs : noBS (pyRstrip (txt "  " ++ replaceNl article)) = true)
    (harchm : markerFree (pyRstrip (build_archive_ul (list_entries files))) = true)
    (harchbs : noBS (pyRstrip (build_archive_ul (list_entries files))) = true) :
    runPublish ⟨some (homeShape P0 f0 t0 P1 X P2 Y P3), files⟩ entryRel
      = ⟨some (publishedShape P0 P1 P2 P3 info article
          (build_archive_ul (list_entries files))), files⟩ ∧
    runPublish ⟨some (publishedShape P0 P1 P2 P3 info article
        (build_archive_ul (list_entries files))), files⟩ entryRel
      = ⟨some (publishedShape P0 P1 P2 P3 info article
          (build_archive_ul (list_entries files))), files⟩ ∧
    onceB LATEST_START (publishedShape P0 P1 P2 P3 info article
      (build_archive_ul (list_entries files))) = true ∧
    onceB LATEST_END (publishedShape P0 P1 P2 P3 info article
      (build_archive_ul (list_entries files))) = true ∧
    onceB ARCHIVE_START (publishedShape P0 P1 P2 P3 info article
      (build_archive_ul (list_entries files))) = true ∧
    onceB ARCHIVE_END (publishedShape P0 P1 P2 P3 info article
      (build_archive_ul (list_entries files))) = true := by
  have mNl : markerFree (txt "\n") = true := by decide
  have mNl2 : markerFree (txt "\n  ") = true := by decide
  have hXc : markerFree (txt "\n" ++ (pyRstrip (txt "  " ++ replaceNl article)
      ++ txt "\n  ")) = true :=
    markerFree_append mNl (markerFree_append hartm mNl2)
  have hYc : markerFree (txt "\n" ++ (pyRstrip (build_archive_ul (list_entries files))
      ++ txt "\n  ")) = true :=
    markerFree_append mNl (markerFree_append harchm mNl2)
  have h1 := publish_shape P0 P1 P2 P3 X Y f0 t0 entryRel content article info
    files hlook hart hinfo hf0 hf0q ht0 ht0q hrelm htlm hP0m hP0 hP1 hP2 hX hY
    hartm hartbs harchbs
  have h2 := publish_shape P0 P1 P2 P3
    (txt "\n" ++ (pyRstrip (txt "  " ++ replaceNl article) ++ txt "\n  "))
    (txt "\n" ++ (pyRstrip (build_archive_ul (list_entries files)) ++ txt "\n  "))
    info.rel_path info.title_line entryRel content article info files
    hlook hart hinfo hrel hrelq htl htlq hrelm htlm hP0m hP0 hP1 hP2 hXc hYc
    hartm hartbs harchbs
  have honce := onceB_homeShape P0 info.rel_path info.title_line P1
    (txt "\n" ++ (pyRstrip (txt "  " ++ replaceNl article) ++ txt "\n  ")) P2
    (txt "\n" ++ (pyRstrip (build_archive_ul (list_entries files)) ++ txt "\n  ")) P3
    hrelm htlm hP0 hP1 hP2 hP3 hXc hYc
  refine ⟨?_, ?_, honce.1, honce.2.1, honce.2.2.1, honce.2.2.2⟩
  · unfold runPublish
    rw [h1]
    rfl
  · unfold runPublish
    rw [show publishedShape P0 P1 P2 P3 info article (build_archive_ul (list_entries files))
      = homeShape P0 info.rel_path info.title_line P1
          (txt "\n" ++ (pyRstrip (txt "  " ++ replaceNl article) ++ txt "\n  ")) P2
          (txt "\n" ++ (pyRstrip (build_archive_ul (list_entries files)) ++ txt "\n  "))
          P3 from rfl]
    rw [h2]

/-! ### Concrete publish scenarios (used for C3's counterexample and witness) -/

/-- An entry whose article block embeds the text `<!-- LATEST_END -->`. -/
def entryCex : Text := txt "<article><h3>2025-01-02 — A</h3>a<!-- LATEST_END -->b</article>"
def relCex : Text := txt "entries/e.html"
def filesCex : List (Text × Text) := [(relCex, entryCex)]
/-- A home page with both marker pairs exactly once and a well-formed
metadata comment. -/
def idxCex : Text := txt "<!-- LATEST_META file=\"x\" title=\"y\" --><!-- LATEST_START -->z<!-- LATEST_END --><!-- ARCHIVE START -->q<!-- ARCHIVE END -->"

/-- The home page after publishing `entryCex` once. -/
def pubCexOnce : Text := txt "<!-- LATEST_META file=\"entries/e.html\" title=\"2025-01-02 — A\" --><!-- LATEST_START -->\n  <article><h3>2025-01-02 — A</h3>a<!-- LATEST_END -->b</article>\n  <!-- LATEST_END --><!-- ARCHIVE START -->\n                <li><a href=\"entries/e.html\">2025-01-02 - A</a></li>\n  <!-- ARCHIVE END -->"

/-- The home page after publishing `entryCex` a second time: the splice ends at
the marker text embedded in the article, so `b</article>` and one
`<!-- LATEST_END -->` are duplicated. -/
def pubCexTwice : Text := txt "<!-- LATEST_META file=\"entries/e.html\" title=\"2025-01-02 — A\" --><!-- LATEST_START -->\n  <article><h3>2025-01-02 — A</h3>a<!-- LATEST_END -->b</article>\n  <!-- LATEST_END -->b</article>\n  <!-- LATEST_END --><!-- ARCHIVE START -->\n                <li><a href=\"entries/e.html\">2025-01-02 - A</a></li>\n  <!-- ARCHIVE END -->"

/-- C3 (counterexample): the claim quantifies over every entry document, but
for an entry whose article block itself contains `<!-- LATEST_END -->`, a home
page with valid (unique) marker pairs and a well-formed metadata comment is
rewritten differently by the second publish: both runs succeed, yet the second
output duplicates part of the article, so the page is not identical after the
second run. -/
theorem C3_counterexample :
    ensure_markers_exist idxCex = Except.ok () ∧
    onceB LATEST_START idxCex = true ∧ onceB LATEST_END idxCex = true ∧
    onceB ARCHIVE_START idxCex = true ∧ onceB ARCHIVE_END idxCex = true ∧
    (scanFirst matchMeta idxCex).isSome = true ∧
    cmd_publish ⟨some idxCex, filesCex⟩ relCex = Except.ok pubCexOnce ∧
    cmd_publish ⟨some pubCexOnce, filesCex⟩ relCex = Except.ok pubCexTwice ∧
    ¬ pubCexOnce = pubCexTwice :=
  ⟨rfl, rfl, rfl, rfl, rfl, rfl, rfl, rfl, by decide⟩

/-- A well-behaved concrete entry (no marker text inside). -/
def entryWit : Text := txt "<article class=\"entry-card\"><h3>2025-12-27 — First Entry</h3><p class=\"entry-meta\">Setting up shop.</p><p>Body</p></article>"
def relWit : Text := txt "entries/2025-12-27-first-entry.html"
def filesWit : List (Text × Text) := [(relWit, entryWit)]
def infoWit : EntryInfo :=
  { rel_path := relWit, date_str := txt "2025-12-27",
    title_line := txt "2025-12-27 — First Entry",
    meta := txt "Setting up shop.", sort_key := (2025, 12, 27) }

theorem C3_publish_twice_idempotent_witness :
    runPublish ⟨some (homeShape (txt "<html><!-- banner -->") (txt "x") (txt "y")
        (txt "\n") (txt "old") (txt "\n") (txt "oldarch") (txt "\n</html>")),
      filesWit⟩ relWit
      = ⟨some (publishedShape (txt "<html><!-- banner -->") (txt "\n") (txt "\n")
          (txt "\n</html>")
          infoWit entryWit (build_archive_ul (list_entries filesWit))), filesWit⟩ :=
  (C3_publish_twice_idempotent (txt "<html><!-- banner -->") (txt "\n") (txt "\n")
    (txt "\n</html>") (txt "old") (txt "oldarch") (txt "x") (txt "y")
    relWit entryWit entryWit infoWit filesWit
    rfl rfl rfl (by decide) (by decide) (by decide) (by decide)
    (by decide) (by decide) (by decide) (by decide) (by decide) (by decide)
    (by decide) (by decide) (by decide) (by decide) (by decide) (by decide)
    (by decide) (by decide) (by decide) (by decide) (by decide)).1

/-! ## C1: when does `replace_between_markers` fail? -/

theorem countRegions_eq_zero_iff {s e t : Text} :
    countRegions s e t = 0 ↔ scanFirst (regionMatch s e) t = none := by
  cases h : scanFirst (regionMatch s e) t with
  | none => simp [countRegions, countRegionsFuel, h]
  | some pr => simp [countRegions, countRegionsFuel, h]

theorem countRegions_zero_of_no_start {s e html : Text}
    (h1 : splitFirst s html = none) : countRegions s e html = 0 := by
  rw [countRegions_eq_zero_iff, scanFirst_eq_none_iff]
  intro k
  unfold regionMatch
  rw [(litMatch_eq_none).mpr (splitFirst_eq_none_iff.mp h1 k)]
  rfl

theorem countRegions_zero_of_no_end {s e html a rest : Text}
    (h1 : splitFirst s html = some (a, rest))
    (h2 : splitFirst e rest = none) : countRegions s e html = 0 := by
  obtain ⟨k0, hk0, hpre, hm, hnone⟩ := scanFirst_some_elim h1
  rw [countRegions_eq_zero_iff, scanFirst_eq_none_iff]
  intro k
  unfold regionMatch
  cases hlk : litMatch s (html.drop k) with
  | none => rfl
  | some r' =>
    have hkk0 : k0 ≤ k := by
      by_contra hlt
      have := hnone k (by omega)
      rw [this] at hlk
      exact absurd hlk (by simp)
    have hre : ∀ i, litMatch e (rest.drop i) = none := by
      intro i
      have h2' : scanFirst (litMatch e) rest = none := h2
      exact scanFirst_eq_none_iff.mp h2' i
    have hr' : r' = (html.drop k).drop s.length := by
      rw [litMatch_eq_some hlk]
      exact (List.drop_left s r').symm
    have hrest : rest = (html.drop k0).drop s.length := by
      rw [litMatch_eq_some hm]
      exact (List.drop_left s rest).symm
    suffices hsf : scanFirst (litMatch e) r' = none by
      show Option.map (fun pa => pa.2) (scanFirst (litMatch e) r') = none
      rw [hsf]
      rfl
    rw [scanFirst_eq_none_iff]
    intro j
    have hidx : r'.drop j = rest.drop (k - k0 + j) := by
      rw [hr', hrest, List.drop_drop, List.drop_drop, List.drop_drop,
        List.drop_drop]
      congr 1
      omega
    rw [hidx]
    exact hre _

/-- C1 (amended): when the replacement block compiles as an `re.subn`
template — in particular whenever it contains no backslash —
`replace_between_markers` fails (with the found-0-matches error) if and only
if the document contains no start-to-end region at all.  Because the Python
substitution is capped at `count=1`, the substitution count can never exceed
one, so multiple regions are NOT detected: the first region is replaced and
no error is raised.  When the block's template is malformed (for example a
bad backslash escape in the replacement text), the `re.error` is raised
regardless of how many regions exist, even zero. -/
theorem C1_replace_error_iff_no_region (html s e r : Text) :
    (∀ cs, compileRepl (s ++ txt "\n" ++ pyRstrip r ++ txt "\n  " ++ e)
        = Except.ok cs →
      (replace_between_markers html s e r = Except.error (zeroMatchMsg s e)
        ↔ countRegions s e html = 0)) ∧
    (∀ msg, compileRepl (s ++ txt "\n" ++ pyRstrip r ++ txt "\n  " ++ e)
        = Except.error msg →
      replace_between_markers html s e r = Except.error msg) := by
  constructor
  · intro cs hcs
    unfold replace_between_markers
    rw [hcs]
    cases h1 : splitFirst s html with
    | none =>
      exact ⟨fun _ => countRegions_zero_of_no_start h1, fun _ => rfl⟩
    | some pr =>
      obtain ⟨a, rest⟩ := pr
      show (match splitFirst e rest with
          | none => Except.error (zeroMatchMsg s e)
          | some (m, b) => Except.ok (a ++ expandRepl cs (s ++ (m ++ e)) ++ b))
          = Except.error (zeroMatchMsg s e) ↔ countRegions s e html = 0
      cases h2 : splitFirst e rest with
      | none =>
        exact ⟨fun _ => countRegions_zero_of_no_end h1 h2, fun _ => rfl⟩
      | some qr =>
        constructor
        · intro hab
          simp at hab
        · intro hc
          exfalso
          rw [countRegions_eq_zero_iff, scanFirst_eq_none_iff] at hc
          obtain ⟨k0, hk0, hpre, hm, hnone⟩ := scanFirst_some_elim h1
          have hreg : regionMatch s e (html.drop k0) = some qr.2 := by
            unfold regionMatch
            rw [hm]
            show Option.map (fun pa => pa.2) (scanFirst (litMatch e) rest) = some qr.2
            rw [show scanFirst (litMatch e) rest = some qr from h2]
            rfl
          have := hc k0
          rw [hreg] at this
          exact absurd this (by simp)
  · intro msg hmsg
    unfold replace_between_markers
    rw [hmsg]

/-- C1 (counterexample to the claim as stated): a document with two
start-to-end regions is not rejected — the first region is replaced and the
call succeeds, although the claim requires a `MarkerNotFound` failure whenever
the number of regions is not exactly one. -/
theorem C1_counterexample :
    countRegions (txt "S") (txt "E") (txt "SxESyE") = 2 ∧
    replace_between_markers (txt "SxESyE") (txt "S") (txt "E") (txt "r")
      = Except.ok (txt "S\nr\n  ESyE") := by
  exact ⟨by decide, rfl⟩

theorem C1_replace_error_iff_no_region_witness :
    replace_between_markers (txt "abc") (txt "S") (txt "E") (txt "r")
      = Except.error (zeroMatchMsg (txt "S") (txt "E")) ∧
    replace_between_markers (txt "xyz") (txt "S") (txt "E") (txt "\\q")
      = Except.error "bad escape \\q" :=
  ⟨((C1_replace_error_iff_no_region (txt "abc") (txt "S") (txt "E") (txt "r")).1
      [ReplChunk.lit (txt "S\nr\n  E")] rfl).mpr (by decide),
    (C1_replace_error_iff_no_region (txt "xyz") (txt "S") (txt "E") (txt "\\q")).2
      "bad escape \\q" rfl⟩

/-! ## C5: the successful splice -/

/-- C5 (amended): when exactly one start-to-end region exists and the markers
and replacement contain no backslash — so `re.subn` inserts the block
verbatim instead of template-processing it — the splicer returns the document
with that region replaced by the start marker, a newline, the replacement
with trailing whitespace stripped, a newline plus two spaces, and the end
marker; the text outside the region (`A` and `B`) and the markers themselves
are unchanged.  The decomposition is produced by the splicer's own scans:
`A` is the text before the first occurrence of `s` and `B` the text after
the first occurrence of `e` following it. -/
theorem C5_replace_between_markers_splices (html s e r : Text)
    (hcount : countRegions s e html = 1)
    (hs : noBS s = true) (he : noBS e = true) (hr : noBS r = true) :
    ∃ A M B, html = A ++ (s ++ (M ++ (e ++ B))) ∧
      splitFirst s html = some (A, M ++ (e ++ B)) ∧
      splitFirst e (M ++ (e ++ B)) = some (M, B) ∧
      replace_between_markers html s e r
        = Except.ok (A ++ s ++ txt "\n" ++ pyRstrip r ++ txt "\n  " ++ e ++ B) := by
  have hbs : noBS (s ++ txt "\n" ++ pyRstrip r ++ txt "\n  " ++ e) = true :=
    noBS_append (noBS_append (noBS_append (noBS_append hs (by decide))
      (noBS_pyRstrip hr)) (by decide)) he
  cases h1 : splitFirst s html with
  | none =>
    exfalso
    rw [countRegions_zero_of_no_start h1] at hcount
    exact absurd hcount (by simp)
  | some pr =>
    obtain ⟨a, rest⟩ := pr
    cases h2 : splitFirst e rest with
    | none =>
      exfalso
      rw [countRegions_zero_of_no_end h1 h2] at hcount
      exact absurd hcount (by simp)
    | some qr =>
      obtain ⟨m, b⟩ := qr
      have hd2 := (splitFirst_some_elim h2).1
      have hrest : rest = m ++ (e ++ b) := by
        rw [hd2]
        simp [List.append_assoc]
      have hd1 := (splitFirst_some_elim h1).1
      refine ⟨a, m, b, ?_, ?_, ?_, ?_⟩
      · rw [hd1, hrest]
        simp [List.append_assoc]
      · rw [hrest]
      · rw [← hrest]
        exact h2
      · unfold replace_between_markers
        rw [compileRepl_lit hbs]
        simp only [h1, h2]
        simp [expandRepl, List.append_assoc]

/-- C5 (counterexample to the claim as stated): the claim quantifies over
every replacement text, but `re.subn` template-processes the replacement
block; for a replacement containing a bad backslash escape the call raises
`re.error` even though exactly one start-to-end region exists, instead of
returning the spliced document. -/
theorem C5_counterexample :
    countRegions (txt "S") (txt "E") (txt "aSmEb") = 1 ∧
    replace_between_markers (txt "aSmEb") (txt "S") (txt "E") (txt "\\q")
      = Except.error "bad escape \\q" := by
  exact ⟨by decide, rfl⟩

theorem C5_replace_between_markers_splices_witness :
    ∃ A M B, txt "aSmEb" = A ++ (txt "S" ++ (M ++ (txt "E" ++ B))) ∧
      splitFirst (txt "S") (txt "aSmEb") = some (A, M ++ (txt "E" ++ B)) ∧
      splitFirst (txt "E") (M ++ (txt "E" ++ B)) = some (M, B) ∧
      replace_between_markers (txt "aSmEb") (txt "S") (txt "E") (txt "new  ")
        = Except.ok (A ++ txt "S" ++ txt "\n" ++ pyRstrip (txt "new  ")
            ++ txt "\n  " ++ txt "E" ++ B) :=
  C5_replace_between_markers_splices (txt "aSmEb") (txt "S") (txt "E")
    (txt "new  ") (by decide) (by decide) (by decide) (by decide)

/-! ## C4: the publish operation has a single durable mutation -/

/-- C4: running `publish` can only change the home page. The entry files are
never written; when any step of `cmd_publish` fails (missing index, missing
entry, missing markers, malformed entry, or a failed splice or metadata
rewrite) the world is completely unchanged — the final write is the only
mutation and it happens only when every earlier step succeeded. -/
theorem C4_publish_single_mutation (w : World) (entryRel : Text) :
    (runPublish w entryRel).files = w.files ∧
    (∀ msg, cmd_publish w entryRel = Except.error msg → runPublish w entryRel = w) ∧
    (∀ t, cmd_publish w entryRel = Except.ok t →
      runPublish w entryRel = ⟨some t, w.files⟩) := by
  unfold runPublish
  cases h : cmd_publish w entryRel with
  | ok t =>
    refine ⟨rfl, ?_, ?_⟩
    · intro msg hmsg
      exact absurd hmsg (by simp)
    · intro t' ht'
      obtain rfl := Except.ok.inj ht'
      rfl
  | error e =>
    refine ⟨rfl, fun msg _ => rfl, ?_⟩
    intro t' ht'
    exact absurd ht' (by simp)

theorem C4_publish_single_mutation_witness :
    runPublish ⟨none, []⟩ (txt "entries/e.html") = ⟨none, []⟩ :=
  (C4_publish_single_mutation ⟨none, []⟩ (txt "entries/e.html")).2.1
    "Missing index.html" rfl

/-! ## C10: the pre-flight check is weaker than the metadata rewrite -/

/-- A home page whose marker pairs are fine and which contains the bare text
`LATEST_META`, but no comment of the full quoted-attribute form. -/
def idxBareMeta : Text := txt "<!-- LATEST_START -->a<!-- LATEST_END --><!-- ARCHIVE START -->b<!-- ARCHIVE END -->LATEST_META"

/-- C10: `ensure_markers_exist` only checks that the substring `LATEST_META`
occurs, while `update_latest_meta` requires a comment matching
`<!-- LATEST_META file="..." title="..." -->`; on this home page the
pre-flight check passes and the rewrite nevertheless fails. -/
theorem C10_preflight_weaker_than_rewrite :
    ensure_markers_exist idxBareMeta = Except.ok () ∧
    containsB (txt "LATEST_META") idxBareMeta = true ∧
    update_latest_meta idxBareMeta infoWit
      = Except.error "Could not find/replace LATEST_META line." :=
  ⟨rfl, rfl, rfl⟩

/-! ## C2: the displayed archive title -/

theorem dropWhile_idem (p : Char → Bool) (l : Text) :
    (l.dropWhile p).dropWhile p = l.dropWhile p := by
  induction l with
  | nil => rfl
  | cons c tl ih =>
    rw [List.dropWhile_cons]
    split
    · exact ih
    · rename_i hc
      rw [List.dropWhile_cons, if_neg hc]

theorem dropWhile_reverse_dropWhile (p : Char → Bool) (u : Text)
    (hu : u.dropWhile p = u) :
    ((u.reverse.dropWhile p).reverse).dropWhile p = (u.reverse.dropWhile p).reverse := by
  cases u with
  | nil => rfl
  | cons c tl =>
    have hc : p c = false := by
      rw [List.dropWhile_cons] at hu
      by_contra hcon
      rw [Bool.not_eq_false] at hcon
      rw [if_pos hcon] at hu
      have := congrArg List.length hu
      have hle := (List.dropWhile_sublist (l := tl) (p := p)).length_le
      simp at this
      omega
    rw [List.reverse_cons, List.dropWhile_append]
    split
    · rename_i hemp
      simp [List.dropWhile_cons, hc]
    · rename_i hemp
      rw [List.reverse_append]
      simp only [List.reverse_cons, List.reverse_nil, List.nil_append,
        List.singleton_append]
      rw [List.dropWhile_cons, hc]
      simp

theorem pyStrip_idem (x : Text) : pyStrip (pyStrip x) = pyStrip x := by
  unfold pyStrip
  have h1 : ((x.dropWhile pyIsSpace).reverse.dropWhile pyIsSpace).reverse.dropWhile
      pyIsSpace = ((x.dropWhile pyIsSpace).reverse.dropWhile pyIsSpace).reverse :=
    dropWhile_reverse_dropWhile pyIsSpace (x.dropWhile pyIsSpace)
      (dropWhile_idem pyIsSpace x)
  rw [h1, List.reverse_reverse, dropWhile_idem]

theorem pyStrip_normSpace (t : Text) : pyStrip (normSpace t) = normSpace t := by
  unfold normSpace
  exact pyStrip_idem _

theorem noStartB_singleton {ch : Char} {pre : Text} (h : ∀ c ∈ pre, ¬ c = ch) :
    noStartB [ch] pre = true := by
  apply noStartB_intro
  · rw [splitFirst_eq_none_iff]
    intro k
    by_contra hcon
    rw [Bool.not_eq_false] at hcon
    obtain ⟨s, hs⟩ := hasPre_iff.mp hcon
    have : ch ∈ pre := List.drop_subset k pre (by rw [hs]; exact List.mem_cons_self ..)
    exact h ch this rfl
  · intro m hm0 hm1
    simp at hm1
    omega

theorem afterFirstEmDash_of_none {t : Text} (h : ∀ c ∈ t, ¬ c = '—') :
    afterFirstEmDash t = t := by
  unfold afterFirstEmDash
  rw [show txt "—" = ['—'] from rfl,
    (noStartB_parts (noStartB_singleton h)).1]

theorem afterFirstEmDash_of_decomp {pre post : Text} (h : ∀ c ∈ pre, ¬ c = '—') :
    afterFirstEmDash (pre ++ '—' :: post) = post := by
  unfold afterFirstEmDash
  rw [show txt "—" = ['—'] from rfl,
    show pre ++ '—' :: post = pre ++ (['—'] ++ post) from rfl,
    splitFirst_decomp (noStartB_singleton h)]

theorem extract_title_line_normalized {rel content : Text} {info : EntryInfo}
    (h : extract_entry_info rel content = Except.ok info) :
    ∃ inner, searchH3 content = some inner ∧ info.title_line = normSpace inner := by
  unfold extract_entry_info at h
  split at h
  · exact absurd h (by simp)
  · rename_i inner h1
    split at h
    · exact absurd h (by simp)
    · rename_i y m d ttl h2
      refine ⟨inner, h1, ?_⟩
      have := Except.ok.inj h
      rw [← this]

/-- C2 (amended): the archive list item for a parsed entry renders
`date_str - displayTitle`, where the display title is the portion of
`title_line` after the first em-dash when the heading separator was an
em-dash; when the separator was a plain hyphen (so `title_line` contains no
em-dash) the display title is the whole `title_line`, and the date prefix is
repeated in the rendered line. -/
theorem C2_display_title (rel content : Text) (info : EntryInfo)
    (h : extract_entry_info rel content = Except.ok info) :
    build_archive_ul [info]
      = txt "                <li><a href=\"" ++ info.rel_path ++ txt "\">"
        ++ info.date_str ++ txt " - " ++ displayTitle info ++ txt "</a></li>" ∧
    (∀ pre post, info.title_line = pre ++ '—' :: post → (∀ c ∈ pre, ¬ c = '—') →
      displayTitle info = pyStrip post) ∧
    ((∀ c ∈ info.title_line, ¬ c = '—') → displayTitle info = info.title_line) := by
  refine ⟨rfl, ?_, ?_⟩
  · intro pre post hdec hpre
    unfold displayTitle
    rw [hdec, afterFirstEmDash_of_decomp hpre]
  · intro hnone
    unfold displayTitle
    rw [afterFirstEmDash_of_none hnone]
    obtain ⟨inner, _, htl⟩ := extract_title_line_normalized h
    rw [htl]
    exact pyStrip_normSpace inner

theorem C2_display_title_witness : displayTitle infoWit = pyStrip (txt " First Entry") :=
  (C2_display_title relWit entryWit infoWit rfl).2.1
    (txt "2025-12-27 ") (txt " First Entry") (by decide) (by decide)

/-- The parse of an entry whose heading separator is a plain hyphen. -/
def infoHyph : EntryInfo :=
  { rel_path := txt "entries/a.html", date_str := txt "2025-01-02",
    title_line := txt "2025-01-02 - Hello", meta := [], sort_key := (2025, 1, 2) }

/-- C2 (counterexample to the claim as stated): with a plain-hyphen separator
the code's `split("—", 1)[-1]` finds no em-dash and returns the whole
`title_line`, so the rendered link text repeats the date
(`2025-01-02 - 2025-01-02 - Hello`) instead of showing the portion after the
separator (`Hello`). -/
theorem C2_counterexample :
    extract_entry_info (txt "entries/a.html")
        (txt "<article><h3>2025-01-02 - Hello</h3></article>")
      = Except.ok infoHyph ∧
    build_archive_ul [infoHyph]
      = txt "                <li><a href=\"entries/a.html\">2025-01-02 - 2025-01-02 - Hello</a></li>" ∧
    ¬ displayTitle infoHyph = txt "Hello" :=
  ⟨rfl, rfl, by decide⟩

/-! ## C6 and C8: the archive listing -/

theorem keyLe_total (x y : Nat × Nat × Nat) : keyLe x y = true ∨ keyLe y x = true := by
  obtain ⟨y1, m1, d1⟩ := x
  obtain ⟨y2, m2, d2⟩ := y
  simp only [keyLe]
  split_ifs <;> simp_all <;> omega

theorem keyLe_trans {x y z : Nat × Nat × Nat} (h1 : keyLe x y = true)
    (h2 : keyLe y z = true) : keyLe x z = true := by
  obtain ⟨y1, m1, d1⟩ := x
  obtain ⟨y2, m2, d2⟩ := y
  obtain ⟨y3, m3, d3⟩ := z
  simp only [keyLe] at *
  split_ifs at * <;> simp_all <;> omega

theorem keyLe_refl (x : Nat × Nat × Nat) : keyLe x x = true := by
  obtain ⟨y1, m1, d1⟩ := x
  simp [keyLe]

theorem textLe_total (a b : Text) : textLe a b = true ∨ textLe b a = true := by
  induction a generalizing b with
  | nil => left; rfl
  | cons c as ih =>
    cases b with
    | nil => right; rfl
    | cons c' bs =>
      unfold textLe
      rcases eq_or_ne c c' with rfl | hne
      · simpa using ih bs
      · have hnat : ¬ c.toNat = c'.toNat := fun h => hne (Char.ext (UInt32.ext h))
        rcases Nat.lt_or_ge c.toNat c'.toNat with hlt | hge
        · left; simp [hne, hlt]
        · right
          have hne' : ¬ c' = c := fun hh => hne hh.symm
          simp [hne']
          omega

theorem textLe_trans {a b c : Text} (h1 : textLe a b = true) (h2 : textLe b c = true) :
    textLe a c = true := by
  induction a generalizing b c with
  | nil => rfl
  | cons x as ih =>
    cases b with
    | nil => exact absurd h1 (by simp [textLe])
    | cons y bs =>
      cases c with
      | nil => exact absurd h2 (by simp [textLe])
      | cons z cs =>
        unfold textLe at h1 h2 ⊢
        rcases eq_or_ne x y with rfl | hxy
        · rcases eq_or_ne x z with rfl | hxz
          · simp only [if_pos rfl] at h1 h2 ⊢
            rcases eq_or_ne x x with _ | h
            · exact ih h1 h2
            · exact absurd rfl h
          · simp only [if_pos rfl] at h1
            rw [if_neg hxz] at h2 ⊢
            exact h2
        · rw [if_neg hxy] at h1
          rcases eq_or_ne y z with rfl | hyz
          · rw [if_neg hxy]
            exact h1
          · rw [if_neg hyz] at h2
            rcases eq_or_ne x z with rfl | hxz
            · exfalso
              simp only [decide_eq_true_eq] at h1 h2
              have : ¬ x.toNat = y.toNat := fun h => hxy (Char.ext (UInt32.ext h))
              omega
            · rw [if_neg hxz]
              simp only [decide_eq_true_eq] at h1 h2 ⊢
              omega

instance : IsTotal EntryInfo keyGe :=
  ⟨fun a b => by
    unfold keyGe
    exact keyLe_total b.sort_key a.sort_key⟩

instance : IsTrans EntryInfo keyGe :=
  ⟨fun a b c h1 h2 => by
    unfold keyGe at *
    exact keyLe_trans h2 h1⟩

instance : IsTotal (Text × Text) nameLe :=
  ⟨fun a b => by
    unfold nameLe
    exact textLe_total a.1 b.1⟩

instance : IsTrans (Text × Text) nameLe :=
  ⟨fun a b c h1 h2 => by
    unfold nameLe at *
    exact textLe_trans h1 h2⟩

theorem filter_orderedInsert (k : Nat × Nat × Nat) (a : EntryInfo)
    (l : List EntryInfo) :
    (l.orderedInsert keyGe a).filter (fun e => decide (e.sort_key = k))
      = if decide (a.sort_key = k) = true
          then a :: l.filter (fun e => decide (e.sort_key = k))
          else l.filter (fun e => decide (e.sort_key = k)) := by
  induction l with
  | nil =>
    rw [List.orderedInsert_nil, List.filter_cons]
  | cons b t ih =>
    unfold List.orderedInsert
    split
    · rw [List.filter_cons]
    · rename_i hnot
      rw [List.filter_cons, ih]
      rcases hb : decide (b.sort_key = k) with _ | _
      · simp [hb, List.filter_cons]
      · have hbk : b.sort_key = k := by simpa using hb
        have ha : decide (a.sort_key = k) = false := by
          rcases hh : decide (a.sort_key = k) with _ | _
          · rfl
          · exfalso
            have hak : a.sort_key = k := by simpa using hh
            exact hnot (by unfold keyGe; rw [hbk, ← hak]; exact keyLe_refl _)
        simp [hb, ha, List.filter_cons]

theorem filter_insertionSort (k : Nat × Nat × Nat) (l : List EntryInfo) :
    (l.insertionSort keyGe).filter (fun e => decide (e.sort_key = k))
      = l.filter (fun e => decide (e.sort_key = k)) := by
  induction l with
  | nil => rfl
  | cons a t ih =>
    unfold List.insertionSort
    rw [filter_orderedInsert, ih, List.filter_cons]

theorem pairwise_filterMap_of {α β : Type} {R : α → α → Prop} {S : β → β → Prop}
    {f : α → Option β} {l : List α} (h : l.Pairwise R)
    (hf : ∀ a b x y, R a b → f a = some x → f b = some y → S x y) :
    (l.filterMap f).Pairwise S := by
  induction l with
  | nil => exact List.Pairwise.nil
  | cons a t ih =>
    rw [List.pairwise_cons] at h
    rw [List.filterMap_cons]
    cases hfa : f a with
    | none => exact ih h.2
    | some x =>
      rw [List.pairwise_cons]
      refine ⟨?_, ih h.2⟩
      intro y hy
      obtain ⟨b, hb, hfb⟩ := List.mem_filterMap.mp hy
      exact hf a b x y (h.1 b hb) hfa hfb

theorem extract_rel_path {n c : Text} {info : EntryInfo}
    (h : extract_entry_info n c = Except.ok info) : info.rel_path = n := by
  unfold extract_entry_info at h
  split at h
  · exact absurd h (by simp)
  · split at h
    · exact absurd h (by simp)
    · have := Except.ok.inj h
      rw [← this]

theorem toOption_eq_some {ε α : Type} {x : Except ε α} {a : α}
    (h : x.toOption = some a) : x = Except.ok a := by
  cases x with
  | ok b =>
    simp only [Except.toOption] at h
    obtain rfl := Option.some.inj h
    rfl
  | error e => simp [Except.toOption] at h

/-- C6: the archive builder returns the parsed entries sorted by
`(year, month, day)` descending, and entries sharing a sort key appear in
ascending lexicographic order of their file names — the stable descending
sort preserves the lexicographically sorted directory-scan order among equal
keys. -/
theorem C6_list_entries_sorted (files : List (Text × Text)) :
    (list_entries files).Pairwise (fun a b => keyLe b.sort_key a.sort_key = true) ∧
    (list_entries files).Pairwise (fun a b => a.sort_key = b.sort_key →
      textLe a.rel_path b.rel_path = true) := by
  constructor
  · exact List.sorted_insertionSort keyGe _
  · have h1 : (((files.filter (fun nc => isEntryFile nc.1)).insertionSort
        nameLe)).Pairwise nameLe := List.sorted_insertionSort nameLe _
    have h2 : (((files.filter (fun nc => isEntryFile nc.1)).insertionSort
          nameLe).filterMap
            (fun nc => (extract_entry_info nc.1 nc.2).toOption)).Pairwise
        (fun x y => textLe x.rel_path y.rel_path = true) := by
      refine pairwise_filterMap_of h1 ?_
      intro a b x y hab ha hb
      rw [extract_rel_path (toOption_eq_some ha),
        extract_rel_path (toOption_eq_some hb)]
      exact hab
    rw [List.pairwise_iff_forall_sublist]
    intro a b hsub hk
    have hfab : [a, b].filter (fun e => decide (e.sort_key = a.sort_key)) = [a, b] := by
      simp [List.filter_cons, hk.symm]
    have hsub2 : List.Sublist [a, b]
        ((((files.filter (fun nc => isEntryFile nc.1)).insertionSort
          nameLe).filterMap (fun nc => (extract_entry_info nc.1 nc.2).toOption)).filter
            (fun e => decide (e.sort_key = a.sort_key))) := by
      have := hsub.filter (fun e => decide (e.sort_key = a.sort_key))
      rw [hfab] at this
      unfold list_entries at this
      rwa [filter_insertionSort] at this
    have h3 := h2.sublist
      (List.filter_sublist (p := fun e => decide (e.sort_key = a.sort_key)) _)
    exact List.pairwise_iff_forall_sublist.mp h3 hsub2

theorem C6_list_entries_sorted_witness :
    (list_entries filesWit).Pairwise
      (fun a b => keyLe b.sort_key a.sort_key = true) :=
  (C6_list_entries_sorted filesWit).1

/-- C8: the archive builder never propagates a parse failure: the returned
list is a permutation of the per-file parses that succeeded (in scan order),
every file that parses contributes its entry, and every returned entry comes
from some file that parsed successfully — a malformed file is silently
excluded and never aborts the listing. -/
theorem C8_list_entries_skips_malformed (files : List (Text × Text)) :
    (list_entries files).Perm
      (((files.filter (fun nc => isEntryFile nc.1)).insertionSort nameLe).filterMap
        (fun nc => (extract_entry_info nc.1 nc.2).toOption)) ∧
    (∀ n c info, (n, c) ∈ files → isEntryFile n = true →
      extract_entry_info n c = Except.ok info → info ∈ list_entries files) ∧
    (∀ info, info ∈ list_entries files →
      ∃ n c, (n, c) ∈ files ∧ extract_entry_info n c = Except.ok info) := by
  refine ⟨List.perm_insertionSort keyGe _, ?_, ?_⟩
  · intro n c info hmem hentry hok
    unfold list_entries
    rw [List.mem_insertionSort]
    rw [List.mem_filterMap]
    refine ⟨(n, c), ?_, by rw [hok]; rfl⟩
    rw [List.mem_insertionSort]
    exact List.mem_filter.mpr ⟨hmem, hentry⟩
  · intro info hmem
    unfold list_entries at hmem
    rw [List.mem_insertionSort, List.mem_filterMap] at hmem
    obtain ⟨nc, hnc, hsome⟩ := hmem
    rw [List.mem_insertionSort] at hnc
    exact ⟨nc.1, nc.2, List.mem_of_mem_filter hnc, toOption_eq_some hsome⟩

theorem C8_list_entries_skips_malformed_witness :
    infoWit ∈ list_entries filesWit :=
  (C8_list_entries_skips_malformed filesWit).2.1 relWit entryWit infoWit
    (List.mem_singleton.mpr rfl) (by decide) rfl

/-! ## C7 and C9: the title-line pattern -/

theorem isDig_bounds {c : Char} (h : isDig c = true) :
    48 ≤ c.toNat ∧ c.toNat ≤ 57 := by
  unfold isDig at h
  rw [Bool.and_eq_true, decide_eq_true_eq, decide_eq_true_eq] at h
  exact ⟨h.1, h.2⟩

theorem digVal_lt {c : Char} (h : isDig c = true) : digVal c < 10 := by
  have := isDig_bounds h
  unfold digVal
  omega

theorem digitChar_digVal {c : Char} (h : isDig c = true) :
    Nat.digitChar (digVal c) = c := by
  obtain ⟨h1, h2⟩ := isDig_bounds h
  have hc : Char.ofNat c.toNat = c := Char.ofNat_toNat c
  have hrange : c.toNat = 48 ∨ c.toNat = 49 ∨ c.toNat = 50 ∨ c.toNat = 51 ∨
      c.toNat = 52 ∨ c.toNat = 53 ∨ c.toNat = 54 ∨ c.toNat = 55 ∨
      c.toNat = 56 ∨ c.toNat = 57 := by omega
  unfold digVal
  rcases hrange with h3 | h3 | h3 | h3 | h3 | h3 | h3 | h3 | h3 | h3 <;>
    (rw [h3, ← hc, h3]; decide)

theorem pad4_digits {c1 c2 c3 c4 : Char} (h1 : isDig c1 = true)
    (h2 : isDig c2 = true) (h3 : isDig c3 = true) (h4 : isDig c4 = true) :
    pad4 (natOfDigits [c1, c2, c3, c4]) = [c1, c2, c3, c4] := by
  have b1 := digVal_lt h1
  have b2 := digVal_lt h2
  have b3 := digVal_lt h3
  have b4 := digVal_lt h4
  have hn : natOfDigits [c1, c2, c3, c4]
      = digVal c1 * 1000 + digVal c2 * 100 + digVal c3 * 10 + digVal c4 := by
    unfold natOfDigits
    simp only [List.foldl]
    omega
  unfold pad4
  rw [hn]
  rw [show (digVal c1 * 1000 + digVal c2 * 100 + digVal c3 * 10 + digVal c4)
      / 1000 % 10 = digVal c1 by omega]
  rw [show (digVal c1 * 1000 + digVal c2 * 100 + digVal c3 * 10 + digVal c4)
      / 100 % 10 = digVal c2 by omega]
  rw [show (digVal c1 * 1000 + digVal c2 * 100 + digVal c3 * 10 + digVal c4)
      / 10 % 10 = digVal c3 by omega]
  rw [show (digVal c1 * 1000 + digVal c2 * 100 + digVal c3 * 10 + digVal c4)
      % 10 = digVal c4 by omega]
  rw [digitChar_digVal h1, digitChar_digVal h2, digitChar_digVal h3,
    digitChar_digVal h4]

theorem pad2_digits {c1 c2 : Char} (h1 : isDig c1 = true) (h2 : isDig c2 = true) :
    pad2 (natOfDigits [c1, c2]) = [c1, c2] := by
  have b1 := digVal_lt h1
  have b2 := digVal_lt h2
  have hn : natOfDigits [c1, c2] = digVal c1 * 10 + digVal c2 := by
    unfold natOfDigits
    simp only [List.foldl]
    omega
  unfold pad2
  rw [hn]
  rw [show (digVal c1 * 10 + digVal c2) / 10 % 10 = digVal c1 by omega]
  rw [show (digVal c1 * 10 + digVal c2) % 10 = digVal c2 by omega]
  rw [digitChar_digVal h1, digitChar_digVal h2]

theorem sepTailGo_isSome_iff (u : Text) :
    (∃ v, sepTailGo u = some v) ↔
      ∃ w r0 rs, u = w ++ r0 :: rs ∧ (∀ c ∈ w, pyIsSpace c = true) ∧
        ¬ r0 = '\n' := by
  induction u with
  | nil =>
    constructor
    · rintro ⟨v, hv⟩
      simp [sepTailGo] at hv
    · rintro ⟨w, r0, rs, hu, _, _⟩
      cases w <;> simp at hu
  | cons c tl ih =>
    by_cases hc : pyIsSpace c = true
    · constructor
      · rintro ⟨v, hv⟩
        unfold sepTailGo at hv
        rw [if_pos hc] at hv
        cases hgo : sepTailGo tl with
        | some r =>
          obtain ⟨w, r0, rs, htl, hw, hr0⟩ := ih.mp ⟨r, hgo⟩
          refine ⟨c :: w, r0, rs, by rw [htl]; rfl, ?_, hr0⟩
          intro x hx
          rcases List.mem_cons.mp hx with rfl | hx'
          · exact hc
          · exact hw x hx'
        | none =>
          rw [hgo] at hv
          have hv' : (if c = '\n' then none
              else some ((c :: tl).takeWhile (fun d => !(d = '\n')))) = some v := hv
          by_cases hcn : c = '\n'
          · rw [if_pos hcn] at hv'
            exact absurd hv' (by simp)
          · exact ⟨[], c, tl, rfl, by simp, hcn⟩
      · rintro ⟨w, r0, rs, hu, hw, hr0⟩
        unfold sepTailGo
        rw [if_pos hc]
        cases hgo : sepTailGo tl with
        | some r => exact ⟨r, rfl⟩
        | none =>
          cases w with
          | nil =>
            simp only [List.nil_append] at hu
            obtain ⟨rfl, rfl⟩ := List.cons.inj hu
            refine ⟨(c :: tl).takeWhile (fun d => !(d = '\n')), ?_⟩
            show (if c = '\n' then none
              else some ((c :: tl).takeWhile (fun d => !(d = '\n'))))
                = some ((c :: tl).takeWhile (fun d => !(d = '\n')))
            rw [if_neg hr0]
          | cons w0 w' =>
            exfalso
            rw [List.cons_append] at hu
            obtain ⟨rfl, htl⟩ := List.cons.inj hu
            have : ∃ v, sepTailGo tl = some v :=
              ih.mpr ⟨w', r0, rs, htl, fun x hx => hw x (List.mem_cons_of_mem _ hx), hr0⟩
            obtain ⟨v', hv'⟩ := this
            rw [hgo] at hv'
            exact absurd hv' (by simp)
    · have hc' : pyIsSpace c = false := Bool.not_eq_true _ ▸ Bool.eq_false_iff.mpr hc
      have hcn : ¬ c = '\n' := by
        intro hh
        rw [hh] at hc'
        exact absurd hc' (by decide)
      constructor
      · intro _
        exact ⟨[], c, tl, rfl, by simp, hcn⟩
      · intro _
        unfold sepTailGo
        rw [if_neg (by simp [hc']), if_neg hcn]
        exact ⟨_, rfl⟩

theorem sepTail_isSome_iff (u : Text) :
    (∃ v, sepTail u = some v) ↔
      ∃ w2 r0 rs, u = w2 ++ r0 :: rs ∧ ¬ w2 = [] ∧
        (∀ c ∈ w2, pyIsSpace c = true) ∧ ¬ r0 = '\n' := by
  cases u with
  | nil =>
    constructor
    · rintro ⟨v, hv⟩
      simp [sepTail] at hv
    · rintro ⟨w2, r0, rs, hu, _, _, _⟩
      cases w2 <;> simp at hu
  | cons c tl =>
    simp only [sepTail]
    by_cases hc : pyIsSpace c = true
    · rw [if_pos hc, sepTailGo_isSome_iff]
      constructor
      · rintro ⟨w, r0, rs, htl, hw, hr0⟩
        refine ⟨c :: w, r0, rs, by rw [htl]; rfl, by simp, ?_, hr0⟩
        intro x hx
        rcases List.mem_cons.mp hx with rfl | hx'
        · exact hc
        · exact hw x hx'
      · rintro ⟨w2, r0, rs, hu, hne, hw, hr0⟩
        cases w2 with
        | nil => exact absurd rfl hne
        | cons a w' =>
          rw [List.cons_append] at hu
          obtain ⟨rfl, htl⟩ := List.cons.inj hu
          exact ⟨w', r0, rs, htl, fun x hx => hw x (List.mem_cons_of_mem _ hx), hr0⟩
    · have hc' : pyIsSpace c = false := Bool.not_eq_true _ ▸ Bool.eq_false_iff.mpr hc
      rw [if_neg (by simp [hc'])]
      constructor
      · rintro ⟨v, hv⟩
        simp at hv
      · rintro ⟨w2, r0, rs, hu, hne, hw, hr0⟩
        exfalso
        cases w2 with
        | nil => exact absurd rfl hne
        | cons a w' =>
          rw [List.cons_append] at hu
          obtain ⟨rfl, _⟩ := List.cons.inj hu
          have := hw c (List.mem_cons_self ..)
          rw [this] at hc'
          exact absurd hc' (by simp)

/-- The title-line pattern
`(\d{4})-(\d{2})-(\d{2})\s+[—-]\s+(.+)` stated declaratively, following the
spec's description: a 4-digit year, 2-digit month and 2-digit day joined by
hyphens, then an em-dash or hyphen surrounded by (nonempty) whitespace, then a
title that starts with at least one non-newline character.  The digit groups
are not range-validated. -/
def specTitleMatch (t : Text) : Prop :=
  ∃ (c1 c2 c3 c4 c5 c6 c7 c8 : Char) (w1 : Text) (sep : Char) (w2 : Text)
    (r0 : Char) (rs : Text),
    t = c1 :: c2 :: c3 :: c4 :: '-' :: c5 :: c6 :: '-' :: c7 :: c8 ::
      (w1 ++ sep :: (w2 ++ r0 :: rs)) ∧
    isDig c1 = true ∧ isDig c2 = true ∧ isDig c3 = true ∧ isDig c4 = true ∧
    isDig c5 = true ∧ isDig c6 = true ∧ isDig c7 = true ∧ isDig c8 = true ∧
    ¬ w1 = [] ∧ (∀ c ∈ w1, pyIsSpace c = true) ∧
    (sep = '—' ∨ sep = '-') ∧
    ¬ w2 = [] ∧ (∀ c ∈ w2, pyIsSpace c = true) ∧
    ¬ r0 = '\n'

theorem parseTitleLine_some_elim {t : Text} {y m d : Nat} {ttl : Text}
    (h : parseTitleLine t = some (y, m, d, ttl)) :
    ∃ c1 c2 c3 c4 c5 c6 c7 c8 rest,
      t = c1 :: c2 :: c3 :: c4 :: '-' :: c5 :: c6 :: '-' :: c7 :: c8 :: rest ∧
      isDig c1 = true ∧ isDig c2 = true ∧ isDig c3 = true ∧ isDig c4 = true ∧
      isDig c5 = true ∧ isDig c6 = true ∧ isDig c7 = true ∧ isDig c8 = true ∧
      y = natOfDigits [c1, c2, c3, c4] ∧ m = natOfDigits [c5, c6] ∧
      d = natOfDigits [c7, c8] ∧
      ¬ rest.takeWhile pyIsSpace = [] ∧
      ∃ sep r3, rest.dropWhile pyIsSpace = sep :: r3 ∧
        (sep = '—' ∨ sep = '-') ∧ sepTail r3 = some ttl := by
  unfold parseTitleLine at h
  split at h
  · rename_i c1 c2 c3 c4 c5 c6 c7 c8 rest
    by_cases hdig : (isDig c1 && isDig c2 && isDig c3 && isDig c4 &&
        isDig c5 && isDig c6 && isDig c7 && isDig c8) = true
    case neg => rw [if_neg hdig] at h; exact absurd h (by simp)
    case pos =>
    rw [if_pos hdig] at h
    simp only [Bool.and_eq_true] at hdig
    obtain ⟨⟨⟨⟨⟨⟨⟨hd1, hd2⟩, hd3⟩, hd4⟩, hd5⟩, hd6⟩, hd7⟩, hd8⟩ := hdig
    by_cases hemp : (rest.takeWhile pyIsSpace).isEmpty = true
    case pos => rw [if_pos hemp] at h; exact absurd h (by simp)
    case neg =>
    rw [if_neg hemp] at h
    have hne : ¬ rest.takeWhile pyIsSpace = [] := by
      intro hh
      exact hemp (by rw [hh]; rfl)
    cases hdw : rest.dropWhile pyIsSpace with
    | nil => rw [hdw] at h; simp at h
    | cons sep r3 =>
      rw [hdw] at h
      have h' : (if (sep = '—' || sep = '-') = true then
          (sepTail r3).map (fun title =>
            (natOfDigits [c1, c2, c3, c4], natOfDigits [c5, c6],
             natOfDigits [c7, c8], title)) else none) = some (y, m, d, ttl) := h
      by_cases hsep : (sep = '—' || sep = '-') = true
      case neg => rw [if_neg hsep] at h'; exact absurd h' (by simp)
      case pos =>
      rw [if_pos hsep] at h'
      obtain ⟨ttl', hst, heq⟩ := Option.map_eq_some'.mp h'
      rw [Prod.mk.injEq, Prod.mk.injEq, Prod.mk.injEq] at heq
      obtain ⟨hy, hm, hd, httl⟩ := heq
      refine ⟨c1, c2, c3, c4, c5, c6, c7, c8, rest, rfl,
        hd1, hd2, hd3, hd4, hd5, hd6, hd7, hd8, hy.symm, hm.symm, hd.symm, hne,
        sep, r3, hdw, ?_, ?_⟩
      · simpa using hsep
      · rw [hst, httl]
  · simp at h

theorem parseTitleLine_some_intro {t : Text} (h : specTitleMatch t) :
    ∃ v, parseTitleLine t = some v := by
  obtain ⟨c1, c2, c3, c4, c5, c6, c7, c8, w1, sep, w2, r0, rs, rfl,
    hd1, hd2, hd3, hd4, hd5, hd6, hd7, hd8, hw1ne, hw1, hsep, hw2ne, hw2, hr0⟩ := h
  have hsepws : pyIsSpace sep = false := by
    rcases hsep with rfl | rfl <;> decide
  have htw : (w1 ++ sep :: (w2 ++ r0 :: rs)).takeWhile pyIsSpace = w1 :=
    takeWhile_append_not hw1 hsepws
  have hdw : (w1 ++ sep :: (w2 ++ r0 :: rs)).dropWhile pyIsSpace
      = sep :: (w2 ++ r0 :: rs) := dropWhile_append_not hw1 hsepws
  have hiw : w1.isEmpty = false := by
    cases w1 with
    | nil => exact absurd rfl hw1ne
    | cons a w' => rfl
  simp only [parseTitleLine]
  rw [if_pos (by simp [hd1, hd2, hd3, hd4, hd5, hd6, hd7, hd8]), htw, hdw]
  rw [if_neg (by simp [hiw])]
  have hstep : (match sep :: (w2 ++ r0 :: rs) with
      | sep :: r3 =>
        if (sep = '—' || sep = '-') = true then
          (sepTail r3).map (fun title =>
            (natOfDigits [c1, c2, c3, c4], natOfDigits [c5, c6],
             natOfDigits [c7, c8], title))
        else none
      | [] => (none : Option (Nat × Nat × Nat × Text)))
      = if (sep = '—' || sep = '-') = true then
          (sepTail (w2 ++ r0 :: rs)).map (fun title =>
            (natOfDigits [c1, c2, c3, c4], natOfDigits [c5, c6],
             natOfDigits [c7, c8], title))
        else none := rfl
  rw [hstep, if_pos (by rcases hsep with rfl | rfl <;> simp)]
  obtain ⟨tv, htv⟩ := (sepTail_isSome_iff (w2 ++ r0 :: rs)).mpr
    ⟨w2, r0, rs, rfl, hw2ne, hw2, hr0⟩
  rw [htv]
  exact ⟨_, rfl⟩

theorem spec_of_parse {t : Text} {y m d : Nat} {ttl : Text}
    (h : parseTitleLine t = some (y, m, d, ttl)) : specTitleMatch t := by
  obtain ⟨c1, c2, c3, c4, c5, c6, c7, c8, rest, rfl,
    hd1, hd2, hd3, hd4, hd5, hd6, hd7, hd8, _, _, _, hw1ne,
    sep, r3, hdw, hsep, hst⟩ := parseTitleLine_some_elim h
  have hw1 : ∀ c ∈ rest.takeWhile pyIsSpace, pyIsSpace c = true :=
    fun c hc => List.mem_takeWhile_imp hc
  have hrest : rest = rest.takeWhile pyIsSpace ++ (sep :: r3) := by
    conv_lhs => rw [← List.takeWhile_append_dropWhile pyIsSpace rest]
    rw [hdw]
  obtain ⟨w2, r0, rs, hr3, hw2ne, hw2, hr0⟩ :=
    (sepTail_isSome_iff r3).mp ⟨ttl, hst⟩
  refine ⟨c1, c2, c3, c4, c5, c6, c7, c8, rest.takeWhile pyIsSpace, sep, w2, r0, rs,
    ?_, hd1, hd2, hd3, hd4, hd5, hd6, hd7, hd8,
    hw1ne, hw1, hsep, hw2ne, hw2, hr0⟩
  rw [hr3] at hrest
  conv_lhs => rw [hrest]

theorem extract_ok_elim {rel content : Text} {info : EntryInfo}
    (h : extract_entry_info rel content = Except.ok info) :
    ∃ inner y m d ttl, searchH3 content = some inner ∧
      parseTitleLine (normSpace inner) = some (y, m, d, ttl) ∧
      info.title_line = normSpace inner ∧
      info.date_str = pad4 y ++ txt "-" ++ pad2 m ++ txt "-" ++ pad2 d ∧
      info.sort_key = (y, m, d) := by
  unfold extract_entry_info at h
  split at h
  · exact absurd h (by simp)
  · rename_i inner h1
    split at h
    · exact absurd h (by simp)
    · rename_i y m d ttl h2
      have hh := Except.ok.inj h
      exact ⟨inner, y, m, d, ttl, h1, h2, by rw [← hh], by rw [← hh], by rw [← hh]⟩

/-- C9: for a successfully parsed entry, `date_str` is exactly the 10-character
date prefix of `title_line` (re-formatting the parsed integers with zero
padding is the identity, because they came from exactly 4, 2 and 2 digits),
and `sort_key` is exactly the integer triple of those digit groups. -/
theorem C9_date_str_roundtrip (rel content : Text) (info : EntryInfo)
    (h : extract_entry_info rel content = Except.ok info) :
    info.date_str = info.title_line.take 10 ∧
    info.sort_key = (natOfDigits (info.title_line.take 4),
      natOfDigits ((info.title_line.drop 5).take 2),
      natOfDigits ((info.title_line.drop 8).take 2)) := by
  obtain ⟨inner, y, m, d, ttl, _, h2, htl, hds, hsk⟩ := extract_ok_elim h
  obtain ⟨c1, c2, c3, c4, c5, c6, c7, c8, rest, hsh,
    hd1, hd2, hd3, hd4, hd5, hd6, hd7, hd8, hy, hm, hd', _, _⟩ :=
    parseTitleLine_some_elim h2
  rw [htl, hsh]
  constructor
  · rw [hds, hy, hm, hd', pad4_digits hd1 hd2 hd3 hd4, pad2_digits hd5 hd6,
      pad2_digits hd7 hd8]
    rfl
  · rw [hsk, hy, hm, hd']
    rfl

theorem C9_date_str_roundtrip_witness :
    infoWit.date_str = infoWit.title_line.take 10 :=
  (C9_date_str_roundtrip relWit entryWit infoWit rfl).1

/-- The parse of an entry with month 13 and day 40: accepted, because the
digit groups are not range-validated. -/
def infoM13 : EntryInfo :=
  { rel_path := txt "entries/m13.html", date_str := txt "2025-13-40",
    title_line := txt "2025-13-40 — X", meta := [], sort_key := (2025, 13, 40) }

/-- C7: the entry parser fails exactly when the entry has no (case-insensitive)
`<h3>` element, or when the whitespace-normalized inner text of the first one
does not match the declarative title pattern (4-digit year, 2-digit month,
2-digit day, separator em-dash or hyphen surrounded by whitespace, nonempty
title); and the digits are not range-validated — an entry dated `2025-13-40`
parses successfully. -/
theorem C7_malformed_iff (rel content : Text) :
    ((∃ msg, extract_entry_info rel content = Except.error msg) ↔
      (searchH3 content = none ∨
        ∃ inner, searchH3 content = some inner ∧
          ¬ specTitleMatch (normSpace inner))) ∧
    extract_entry_info (txt "entries/m13.html")
        (txt "<article><h3>2025-13-40 — X</h3></article>")
      = Except.ok infoM13 := by
  refine ⟨?_, rfl⟩
  cases h1 : searchH3 content with
  | none =>
    constructor
    · intro _
      exact Or.inl rfl
    · intro _
      exact ⟨"Entry file must contain an h3 title line.",
        by simp [extract_entry_info, h1]⟩
  | some inner =>
    cases h2 : parseTitleLine (normSpace inner) with
    | none =>
      constructor
      · intro _
        refine Or.inr ⟨inner, rfl, ?_⟩
        intro hspec
        obtain ⟨v, hv⟩ := parseTitleLine_some_intro hspec
        rw [h2] at hv
        exact absurd hv (by simp)
      · intro _
        exact ⟨"Entry h3 must start like a dated title line.",
          by simp [extract_entry_info, h1, h2]⟩
    | some v =>
      obtain ⟨y, m, d, ttl⟩ := v
      constructor
      · rintro ⟨msg, hmsg⟩
        rw [show extract_entry_info rel content = Except.ok
            { rel_path := rel,
              date_str := pad4 y ++ txt "-" ++ pad2 m ++ txt "-" ++ pad2 d,
              title_line := normSpace inner,
              meta := match searchMetaP content with
                | some g => normSpace g
                | none => [],
              sort_key := (y, m, d) } by
          simp [extract_entry_info, h1, h2]] at hmsg
        exact absurd hmsg (by simp)
      · rintro (hnone | ⟨inner', hinner', hnspec⟩)
        · exact absurd hnone (by simp)
        · obtain rfl := Option.some.inj hinner'
          exact absurd (spec_of_parse h2) hnspec

theorem C7_malformed_iff_witness :
    ∃ msg, extract_entry_info (txt "entries/x.html") (txt "<p>no heading</p>")
      = Except.error msg :=
  (C7_malformed_iff (txt "entries/x.html") (txt "<p>no heading</p>")).1.mpr
    (Or.inl rfl)

end Journal
